import Mathlib

/-!
Verification of the `ConnectionPoolManager` component of the cpp-driver
repository (`connection_pool_manager.cpp`).

The manager state is shallowly embedded: the dense hash map `pools_` becomes
an association list with unique keys, `pending_pools_` a list of connectors,
`to_flush_` a list of addresses (pools are unique per address), `close_state_`
an enumeration and `listener_` an optional (possibly-null) pointer value.
Each manager operation is translated directly from the source; operations that
invoke listener callbacks additionally return the list of emitted events so
that temporal claims about callback ordering can be stated over traces.

Collaborator code that is not part of the given sources (`ConnectionPool`,
`ConnectionPoolConnector`) is modelled from the specification where a claim
needs it; those definitions are marked `Modelled from the spec:`.
-/

namespace Cass

/-- An address is an (IP, port) pair; equality and hash are by both fields. -/
structure Address where
  ip : Nat
  port : Nat
deriving DecidableEq, Repr

/-- Modelled from the spec: a `PooledConnection` (pooled_connection.cpp is not
in the sources) is observable through its id, in-flight count and stream
capacity, which is all `find_least_busy` consults. -/
structure PooledConnection where
  id : Nat
  in_flight : Nat
  max_streams : Nat
deriving DecidableEq, Repr

/-- Modelled from the spec: pool state machine
growing / ready / reconnecting / closing / closed. -/
inductive PoolState where
  | growing
  | ready
  | reconnecting
  | closing
  | closed
deriving DecidableEq, Repr

/-- Modelled from the spec: a `ConnectionPool` (connection_pool.cpp is not in
the sources) has an address, a lifecycle state and a set of live connections. -/
structure ConnectionPool where
  address : Address
  state : PoolState
  connections : List PooledConnection
deriving DecidableEq, Repr

/-- Modelled from the spec: `ConnectionPool::find_least_busy` returns the live
connection with the lowest `in_flight` count among those with at least one
free stream id, ties broken by lowest connection id; it returns none when the
pool is empty, all connections are saturated, or the pool is closing/closed
(after `close()`, subsequent `find_least_busy` returns none). -/
def ConnectionPool.find_least_busy (p : ConnectionPool) : Option PooledConnection :=
  if p.state = PoolState.closing ∨ p.state = PoolState.closed then
    none
  else
    (p.connections.filter (fun c => decide (c.in_flight < c.max_streams))).foldl
      (fun best c =>
        match best with
        | none => some c
        | some b =>
          if c.in_flight < b.in_flight ∨ (c.in_flight = b.in_flight ∧ c.id < b.id) then
            some c
          else
            some b)
      none

/-- Modelled from the spec: `ConnectionPool::close` initiates a graceful close,
moving the pool to the closing state (a closed pool stays closed). -/
def ConnectionPool.close (p : ConnectionPool) : ConnectionPool :=
  if p.state = PoolState.closed then p else { p with state := PoolState.closing }

/-- A `ConnectionPoolConnector` as seen by the manager: its target address and
whether `cancel()` has been called. The `id` models pointer identity. -/
structure ConnectionPoolConnector where
  id : Nat
  address : Address
  cancelled : Bool
deriving DecidableEq, Repr

/-- Modelled from the spec: `ConnectionPoolConnector::cancel` is idempotent and
transitions the connector to cancelled. -/
def ConnectionPoolConnector.cancel (c : ConnectionPoolConnector) : ConnectionPoolConnector :=
  { c with cancelled := true }

/-- Manager close state: `CLOSE_STATE_OPEN`, `CLOSE_STATE_CLOSING`,
`CLOSE_STATE_CLOSED`. -/
inductive CloseState where
  | opened
  | closing
  | closed
deriving DecidableEq, Repr

/-- Numeric rank of a close state, used to state monotonic advancement. -/
def CloseState.rank : CloseState → Nat
  | CloseState.opened => 0
  | CloseState.closing => 1
  | CloseState.closed => 2

/-- A listener value: either the shared no-op singleton or a user listener
identified by a number (modelling its pointer). -/
inductive Listener where
  | nop
  | user (n : Nat)
deriving DecidableEq, Repr

/-- Events observable at the listener interface (`on_pool_up`, `on_pool_down`,
`on_pool_critical_error`, `on_close`) plus the manager's outbound calls into
its collaborators (`ConnectionPool::close`, `ConnectionPoolConnector::cancel`),
recorded so that "iterates exactly once" claims can be stated over traces. -/
inductive Event where
  | poolUp (a : Address)
  | poolDown (a : Address)
  | poolCriticalError (a : Address) (code : Nat) (msg : String)
  | onClose
  | poolCloseCall (a : Address)
  | cancelCall (cid : Nat)
deriving DecidableEq, Repr

/-- The four listener callbacks, as opposed to outbound collaborator calls. -/
def Event.isListener : Event → Bool
  | Event.poolUp _ => true
  | Event.poolDown _ => true
  | Event.poolCriticalError _ _ _ => true
  | Event.onClose => true
  | _ => false

/-- The three `on_pool_*` listener callbacks. -/
def Event.isPoolEvent : Event → Bool
  | Event.poolUp _ => true
  | Event.poolDown _ => true
  | Event.poolCriticalError _ _ _ => true
  | _ => false

/-- Manager state: the fields of `ConnectionPoolManager` that its operations
read or write (`pools_`, `pending_pools_`, `to_flush_`, `close_state_`,
`keyspace_`, `listener_`); `next_id` models the allocator handing out fresh
connector identities. -/
structure ConnectionPoolManager where
  pools : List (Address × ConnectionPool)
  pending_pools : List ConnectionPoolConnector
  to_flush : List Address
  close_state : CloseState
  keyspace_ : String
  listener_ : Option Listener
  next_id : Nat
deriving DecidableEq, Repr

/-- Lookup modelling `pools_.find(address)` on the association list. -/
def findPool : List (Address × ConnectionPool) → Address → Option ConnectionPool
  | [], _ => none
  | (b, p) :: rest, a => if b = a then some p else findPool rest a

/-- Erasure modelling `pools_.erase(address)` on the association list. -/
def erasePool : List (Address × ConnectionPool) → Address → List (Address × ConnectionPool)
  | [], _ => []
  | (b, p) :: rest, a => if b = a then rest else (b, p) :: erasePool rest a

/-- Insert-or-replace modelling `pools_[address] = pool` on the association list. -/
def insertPool : List (Address × ConnectionPool) → ConnectionPool → List (Address × ConnectionPool)
  | [], p => [(p.address, p)]
  | (b, q) :: rest, p => if b = p.address then (b, p) :: rest else (b, q) :: insertPool rest p

/-- Update the pool stored at an address in place. -/
def updatePool : List (Address × ConnectionPool) → Address → (ConnectionPool → ConnectionPool) →
    List (Address × ConnectionPool)
  | [], _, _ => []
  | (b, p) :: rest, a, f => if b = a then (b, f p) :: rest else (b, p) :: updatePool rest a f

/-- The `pending_pools_` scan of `add`: is some connector for this address
pending (cancelled or not)? -/
def hasConnectorFor : List ConnectionPoolConnector → Address → Bool
  | [], _ => false
  | c :: rest, a => if c.address = a then true else hasConnectorFor rest a

/-- Look a pending connector up by identity. -/
def findConnector : List ConnectionPoolConnector → Nat → Option ConnectionPoolConnector
  | [], _ => none
  | c :: rest, i => if c.id = i then some c else findConnector rest i

/-- Membership test on the flush set. -/
def memAddr : List Address → Address → Bool
  | [], _ => false
  | b :: rest, a => if b = a then true else memAddr rest a

namespace ConnectionPoolManager

/-- The constructor: empty pool map, no pending connectors, empty flush set,
`CLOSE_STATE_OPEN`, given keyspace, listener defaulted to the shared no-op
listener singleton. -/
def init (keyspace : String) : ConnectionPoolManager :=
  { pools := []
  , pending_pools := []
  , to_flush := []
  , close_state := CloseState.opened
  , keyspace_ := keyspace
  , listener_ := some Listener.nop
  , next_id := 0 }

/-- Translation of `ConnectionPoolManager::find_least_busy`: look the pool up;
return the null pointer when absent, otherwise delegate to the pool. -/
def find_least_busy (m : ConnectionPoolManager) (address : Address) : Option PooledConnection :=
  match findPool m.pools address with
  | none => none
  | some p => p.find_least_busy

/-- Translation of `ConnectionPoolManager::available`: the list of addresses of
the pools currently in the map. -/
def available (m : ConnectionPoolManager) : List Address :=
  m.pools.map Prod.fst

/-- Translation of `ConnectionPoolManager::add`: no-op when a pool for the address exists or
some pending connector targets it; otherwise allocate a connector, append it
to `pending_pools_` and start it. -/
def add (m : ConnectionPoolManager) (address : Address) : ConnectionPoolManager :=
  if (findPool m.pools address).isSome then m
  else if hasConnectorFor m.pending_pools address then m
  else
    { m with
      pending_pools :=
        m.pending_pools ++ [{ id := m.next_id, address := address, cancelled := false }]
      next_id := m.next_id + 1 }

/-- Translation of `ConnectionPoolManager::remove`: no-op when the address has no pool;
otherwise call `close()` on the pool — the pool will remove itself from the
manager when all of its connections are closed. -/
def remove (m : ConnectionPoolManager) (address : Address) : ConnectionPoolManager :=
  match findPool m.pools address with
  | none => m
  | some _ => { m with pools := updatePool m.pools address ConnectionPool.close }

/-- Translation of `ConnectionPoolManager::maybe_closed`: the only place that transitions
closing → closed and fires `on_close`. -/
def maybe_closed (m : ConnectionPoolManager) : ConnectionPoolManager × List Event :=
  if m.close_state = CloseState.closing ∧ m.pools.isEmpty then
    ({ m with close_state := CloseState.closed }, [Event.onClose])
  else
    (m, [])

/-- Translation of `ConnectionPoolManager::close`: on the first call (close state open) move
to closing, call `close()` on every pool and `cancel()` on every pending
connector; every call ends in `maybe_closed()`. -/
def close (m : ConnectionPoolManager) : ConnectionPoolManager × List Event :=
  if m.close_state = CloseState.opened then
    let m1 :=
      { m with
        close_state := CloseState.closing
        pools := m.pools.map (fun e => (e.fst, e.snd.close))
        pending_pools := m.pending_pools.map ConnectionPoolConnector.cancel }
    let evs :=
      m.pools.map (fun e => Event.poolCloseCall e.fst)
        ++ m.pending_pools.map (fun c => Event.cancelCall c.id)
    ((maybe_closed m1).fst, evs ++ (maybe_closed m1).snd)
  else
    maybe_closed m

/-- Translation of `ConnectionPoolManager::set_listener`: store the argument when non-null,
the shared no-op listener otherwise. -/
def set_listener (m : ConnectionPoolManager) (l : Option Nat) : ConnectionPoolManager :=
  { m with
    listener_ :=
      some (match l with
            | none => Listener.nop
            | some n => Listener.user n) }

/-- Translation of `ConnectionPoolManager::keyspace` (read under the keyspace mutex). -/
def keyspace (m : ConnectionPoolManager) : String :=
  m.keyspace_

/-- Translation of `ConnectionPoolManager::set_keyspace` (write under the keyspace mutex). -/
def set_keyspace (m : ConnectionPoolManager) (k : String) : ConnectionPoolManager :=
  { m with keyspace_ := k }

/-- Translation of `ConnectionPoolManager::internal_add_pool`:
the assignment into the map, `pools_[pool->address()] = pool`. -/
def internal_add_pool (m : ConnectionPoolManager) (pool : ConnectionPool) :
    ConnectionPoolManager :=
  { m with pools := insertPool m.pools pool }

/-- Translation of `ConnectionPoolManager::add_pool` (Protected): delegates to
`internal_add_pool`. -/
def add_pool (m : ConnectionPoolManager) (pool : ConnectionPool) : ConnectionPoolManager :=
  internal_add_pool m pool

/-- Translation of `ConnectionPoolManager::notify_closed` (Protected): erase the pool from
the map and the flush set, fire `on_pool_down` when requested and the listener
is non-null, then `maybe_closed()`. -/
def notify_closed (m : ConnectionPoolManager) (pool : ConnectionPool)
    (should_notify_down : Bool) : ConnectionPoolManager × List Event :=
  let m1 :=
    { m with
      pools := erasePool m.pools pool.address
      to_flush := m.to_flush.filter (fun b => decide (b ≠ pool.address)) }
  let evs1 :=
    if should_notify_down ∧ m.listener_.isSome then [Event.poolDown pool.address] else []
  let step2 := maybe_closed m1
  (step2.fst, evs1 ++ step2.snd)

/-- Translation of `ConnectionPoolManager::notify_up` (Protected). -/
def notify_up (m : ConnectionPoolManager) (pool : ConnectionPool) :
    ConnectionPoolManager × List Event :=
  (m, [Event.poolUp pool.address])

/-- Translation of `ConnectionPoolManager::notify_down` (Protected). -/
def notify_down (m : ConnectionPoolManager) (pool : ConnectionPool) :
    ConnectionPoolManager × List Event :=
  (m, [Event.poolDown pool.address])

/-- Translation of `ConnectionPoolManager::notify_critical_error` (Protected). -/
def notify_critical_error (m : ConnectionPoolManager) (pool : ConnectionPool)
    (code : Nat) (msg : String) : ConnectionPoolManager × List Event :=
  (m, [Event.poolCriticalError pool.address code msg])

/-- Translation of `ConnectionPoolManager::requires_flush` (Protected): insert into the set. -/
def requires_flush (m : ConnectionPoolManager) (address : Address) : ConnectionPoolManager :=
  if memAddr m.to_flush address then m else { m with to_flush := address :: m.to_flush }

/-- Translation of `ConnectionPoolManager::flush`: flush each pool in the set, then clear it. -/
def flush (m : ConnectionPoolManager) : ConnectionPoolManager :=
  { m with to_flush := [] }

end ConnectionPoolManager

/-- Outcome a `ConnectionPoolConnector` reports to `on_connect`: either
`is_ok()` with the released ready pool's connections, or a critical failure
with `error_code()` and `error_message()`. -/
inductive ConnectResult where
  | success (conns : List PooledConnection)
  | failure (code : Nat) (msg : String)
deriving DecidableEq, Repr

/-- Translation of `ConnectionPoolManager::handle_connect`: erase the connector from
`pending_pools_`; on success register the released pool, on failure fire
`on_pool_critical_error` with the connector's address, code and message. -/
def ConnectionPoolManager.handle_connect (m : ConnectionPoolManager)
    (c : ConnectionPoolConnector) (r : ConnectResult) :
    ConnectionPoolManager × List Event :=
  let m1 := { m with pending_pools := m.pending_pools.filter (fun d => decide (d.id ≠ c.id)) }
  match r with
  | ConnectResult.success conns =>
    (m1.internal_add_pool { address := c.address, state := PoolState.ready, connections := conns }
    , [])
  | ConnectResult.failure code msg =>
    (m1, [Event.poolCriticalError c.address code msg])

/-!
## Runs

A run drives the manager with user operations and with the upward calls its
collaborators make on the event-loop thread. Environment labels carry the
contracts the spec gives those collaborators: a connector invokes
`on_connect` only while it is pending and not cancelled (cancellation is
lossless), and a pool invokes `notify_closed` / `notify_up` / `notify_down` /
`notify_critical_error` / `requires_flush` only while it is registered in the
manager's pool map. A label whose contract does not hold in the current state
does nothing.
-/

/-- One stimulus applied to the manager: a user-facing operation or an upward
call from a collaborator. -/
inductive Label where
  | add (a : Address)
  | remove (a : Address)
  | close
  | flush
  | set_listener (l : Option Nat)
  | set_keyspace (k : String)
  | connectDone (cid : Nat) (r : ConnectResult)
  | poolClosed (a : Address) (should_notify_down : Bool)
  | poolUp (a : Address)
  | poolDown (a : Address)
  | poolCritical (a : Address) (code : Nat) (msg : String)
  | poolRequiresFlush (a : Address)
deriving DecidableEq, Repr

/-- Labels produced by collaborators (pools and connectors) rather than by
user calls. -/
def Label.isEnv : Label → Bool
  | Label.connectDone _ _ => true
  | Label.poolClosed _ _ => true
  | Label.poolUp _ => true
  | Label.poolDown _ => true
  | Label.poolCritical _ _ _ => true
  | Label.poolRequiresFlush _ => true
  | _ => false

open ConnectionPoolManager in
/-- Apply one label. Environment labels check their contract and otherwise do
nothing; user labels always run the corresponding operation. -/
def step (m : ConnectionPoolManager) : Label → ConnectionPoolManager × List Event
  | Label.add a => (m.add a, [])
  | Label.remove a => (m.remove a, [])
  | Label.close => m.close
  | Label.flush => (m.flush, [])
  | Label.set_listener l => (m.set_listener l, [])
  | Label.set_keyspace k => (m.set_keyspace k, [])
  | Label.connectDone cid r =>
    match findConnector m.pending_pools cid with
    | none => (m, [])
    | some c => if c.cancelled then (m, []) else m.handle_connect c r
  | Label.poolClosed a b =>
    match findPool m.pools a with
    | none => (m, [])
    | some p => m.notify_closed p b
  | Label.poolUp a =>
    match findPool m.pools a with
    | none => (m, [])
    | some p => m.notify_up p
  | Label.poolDown a =>
    match findPool m.pools a with
    | none => (m, [])
    | some p => m.notify_down p
  | Label.poolCritical a code msg =>
    match findPool m.pools a with
    | none => (m, [])
    | some p => m.notify_critical_error p code msg
  | Label.poolRequiresFlush a =>
    match findPool m.pools a with
    | none => (m, [])
    | some _ => (m.requires_flush a, [])

/-- Run a list of labels, concatenating the emitted events. -/
def runFrom (m : ConnectionPoolManager) : List Label → ConnectionPoolManager × List Event
  | [] => (m, [])
  | l :: ls =>
    ((runFrom (step m l).fst ls).fst, (step m l).snd ++ (runFrom (step m l).fst ls).snd)

/-- A state reachable from some construction by some run. -/
def Reachable (m : ConnectionPoolManager) : Prop :=
  ∃ ks ls, m = (runFrom (ConnectionPoolManager.init ks) ls).fst

/-!
## Trace observations
-/

/-- Number of `on_close` callbacks in a trace. -/
def countOnClose : List Event → Nat
  | [] => 0
  | Event.onClose :: rest => countOnClose rest + 1
  | _ :: rest => countOnClose rest

/-- The suffix of a trace strictly after the first `on_close` (none when no
`on_close` occurs). -/
def afterFirstOnClose : List Event → Option (List Event)
  | [] => none
  | Event.onClose :: rest => some rest
  | _ :: rest => afterFirstOnClose rest

/-- Have all pending connectors been cancelled? -/
def allCancelled : List ConnectionPoolConnector → Bool
  | [] => true
  | c :: rest => c.cancelled && allCancelled rest

/-- Does the label pick the `set_keyspace` operation? -/
def Label.isSetKeyspace : Label → Bool
  | Label.set_keyspace _ => true
  | _ => false

/-- Number of connectors for an address in the pending vector. -/
def countConnectorsFor (l : List ConnectionPoolConnector) (a : Address) : Nat :=
  (l.filter (fun c => decide (c.address = a))).length

/-- Number of entries for an address in the pool map. -/
def countPoolsFor (l : List (Address × ConnectionPool)) (a : Address) : Nat :=
  (l.filter (fun e => decide (e.fst = a))).length

/-- Label admissibility used by the shutdown claims: `add` is a label of a run
only while the manager is still open, i.e. the user does not call `add()`
after having called `close()` (the manager may already have been deallocated
by then). All other labels are unrestricted. -/
def allowedB (m : ConnectionPoolManager) : Label → Bool
  | Label.add _ => decide (m.close_state = CloseState.opened)
  | _ => true

/-- Every label of the run is admissible in the state where it fires. -/
def goodLabels : ConnectionPoolManager → List Label → Bool
  | _, [] => true
  | m, l :: ls => allowedB m l && goodLabels (step m l).fst ls

/-!
## Concrete values used by the witness theorems
-/

/-- A concrete address that owns a pool in the witness manager. -/
def addrC3pool : Address := ⟨1, 9042⟩

/-- A concrete address with a pending connector in the witness manager. -/
def addrC3conn : Address := ⟨2, 9042⟩

/-- A concrete address unknown to the witness manager. -/
def addrC3fresh : Address := ⟨3, 9042⟩

/-- A concrete idle connection. -/
def connC6 : PooledConnection := ⟨7, 0, 128⟩

/-- A concrete ready pool holding one idle connection. -/
def poolC6 : ConnectionPool := ⟨addrC3pool, PoolState.ready, [connC6]⟩

/-- A concrete open manager with one pool and one pending connector. -/
def mgrC3 : ConnectionPoolManager :=
  { pools := [(addrC3pool, poolC6)]
  , pending_pools := [⟨0, addrC3conn, false⟩]
  , to_flush := []
  , close_state := CloseState.opened
  , keyspace_ := "ks"
  , listener_ := some Listener.nop
  , next_id := 1 }

/-- The same concrete open manager, used by the close-claim witness. -/
def mgrC2open : ConnectionPoolManager := mgrC3

/-- A concrete manager that has already fully closed. -/
def mgrC2closed : ConnectionPoolManager :=
  { mgrC3 with close_state := CloseState.closed, pools := [], pending_pools := [] }

/-- The same concrete manager, used by the lookup-claim witness. -/
def mgrC6 : ConnectionPoolManager := mgrC3

/-- A reachable manager with one pending connector and no pools. -/
def mgrC4 : ConnectionPoolManager :=
  (runFrom (ConnectionPoolManager.init "k") [Label.add addrC3conn]).fst

/-- A ready pool for the address the connector of `mgrC4` is still trying. -/
def poolC4 : ConnectionPool := ⟨addrC3conn, PoolState.ready, [connC6]⟩

/-- The inductive invariant that carries the pools/pending disjointness:
no address has both a pool and a pending connector, pending connectors have
pairwise distinct addresses, the pool map has no duplicate keys, and each map
entry is keyed by its pool's address. -/
def Inv (m : ConnectionPoolManager) : Prop :=
  (∀ a, (findPool m.pools a).isSome = true → hasConnectorFor m.pending_pools a = false) ∧
  m.pending_pools.Pairwise (fun c d => c.address ≠ d.address) ∧
  (m.pools.map Prod.fst).Nodup ∧
  ∀ e ∈ m.pools, (e.snd).address = e.fst

/-- The inductive invariant of the shutdown protocol over runs in which `add`
is not called after `close()`: once the manager has left the open state every
pending connector is cancelled; in the closed state the pool map is empty;
and in the closing state it is not (otherwise `maybe_closed` would already
have fired). -/
def ShutdownInv (m : ConnectionPoolManager) : Prop :=
  (m.close_state ≠ CloseState.opened → allCancelled m.pending_pools = true) ∧
  (m.close_state = CloseState.closed → m.pools = []) ∧
  (m.close_state = CloseState.closing → m.pools ≠ [])

/-- The manager state after `add(a)` on a fresh manager: one pending
connector, not yet cancelled. -/
def c7mid (ks : String) (a : Address) : ConnectionPoolManager :=
  ⟨[], [⟨0, a, false⟩], [], CloseState.opened, ks, some Listener.nop, 1⟩

/-- The manager state after `add(a); close()` on a fresh manager: fully
closed, the lone connector cancelled but still in the pending vector. -/
def c7closed (ks : String) (a : Address) : ConnectionPoolManager :=
  ⟨[], [⟨0, a, true⟩], [], CloseState.closed, ks, some Listener.nop, 1⟩

/-!
## Lemmas about the container helpers
-/

theorem findPool_none_iff (l : List (Address × ConnectionPool)) (a : Address) :
    findPool l a = none ↔ a ∉ l.map Prod.fst := by
  induction l with
  | nil => simp [findPool]
  | cons e rest ih =>
    obtain ⟨b, p⟩ := e
    by_cases h : b = a
    · subst h
      simp [findPool]
    · simp only [findPool, if_neg h, List.map_cons, List.mem_cons, ih]
      constructor
      · intro hna hor
        rcases hor with rfl | hmem
        · exact h rfl
        · exact hna hmem
      · intro hn hmem
        exact hn (Or.inr hmem)

theorem findPool_mem {l : List (Address × ConnectionPool)} {a : Address} {p : ConnectionPool}
    (h : findPool l a = some p) : (a, p) ∈ l := by
  induction l with
  | nil => simp [findPool] at h
  | cons e rest ih =>
    obtain ⟨b, q⟩ := e
    by_cases hba : b = a
    · subst hba
      simp [findPool] at h
      subst h
      exact List.mem_cons_self _ _
    · simp [findPool, hba] at h
      exact List.mem_cons_of_mem _ (ih h)

theorem findPool_isSome_iff (l : List (Address × ConnectionPool)) (a : Address) :
    (findPool l a).isSome = true ↔ a ∈ l.map Prod.fst := by
  cases hf : findPool l a with
  | none =>
    have := (findPool_none_iff l a).mp hf
    simp [this]
  | some p =>
    have : a ∈ l.map Prod.fst := List.mem_map_of_mem Prod.fst (findPool_mem hf)
    simp [this]

theorem hasConnectorFor_false_iff (l : List ConnectionPoolConnector) (a : Address) :
    hasConnectorFor l a = false ↔ ∀ c ∈ l, c.address ≠ a := by
  induction l with
  | nil => simp [hasConnectorFor]
  | cons c rest ih =>
    by_cases h : c.address = a <;> simp [hasConnectorFor, h, ih]

theorem hasConnectorFor_true_iff (l : List ConnectionPoolConnector) (a : Address) :
    hasConnectorFor l a = true ↔ ∃ c ∈ l, c.address = a := by
  induction l with
  | nil => simp [hasConnectorFor]
  | cons c rest ih =>
    by_cases h : c.address = a <;> simp [hasConnectorFor, h, ih]

theorem hasConnectorFor_append (l₁ l₂ : List ConnectionPoolConnector) (a : Address) :
    hasConnectorFor (l₁ ++ l₂) a = (hasConnectorFor l₁ a || hasConnectorFor l₂ a) := by
  induction l₁ with
  | nil => simp [hasConnectorFor]
  | cons c rest ih =>
    by_cases h : c.address = a <;> simp [hasConnectorFor, h, ih]

theorem hasConnectorFor_map_cancel (l : List ConnectionPoolConnector) (a : Address) :
    hasConnectorFor (l.map ConnectionPoolConnector.cancel) a = hasConnectorFor l a := by
  induction l with
  | nil => simp [hasConnectorFor]
  | cons c rest ih =>
    by_cases h : c.address = a <;>
      simp [hasConnectorFor, ConnectionPoolConnector.cancel, h, ih]

theorem hasConnectorFor_filter_false {l : List ConnectionPoolConnector} {a : Address}
    (f : ConnectionPoolConnector → Bool) (h : hasConnectorFor l a = false) :
    hasConnectorFor (l.filter f) a = false := by
  rw [hasConnectorFor_false_iff] at h ⊢
  intro c hc
  exact h c (List.mem_of_mem_filter hc)

theorem findConnector_some {l : List ConnectionPoolConnector} {i : Nat}
    {c : ConnectionPoolConnector} (h : findConnector l i = some c) :
    c ∈ l ∧ c.id = i := by
  induction l with
  | nil => simp [findConnector] at h
  | cons d rest ih =>
    by_cases hd : d.id = i
    · simp [findConnector, hd] at h
      subst h
      exact ⟨List.mem_cons_self _ _, hd⟩
    · simp [findConnector, hd] at h
      obtain ⟨hmem, hid⟩ := ih h
      exact ⟨List.mem_cons_of_mem _ hmem, hid⟩

theorem allCancelled_iff (l : List ConnectionPoolConnector) :
    allCancelled l = true ↔ ∀ c ∈ l, c.cancelled = true := by
  induction l with
  | nil => simp [allCancelled]
  | cons c rest ih => simp [allCancelled, ih]

theorem allCancelled_map_cancel (l : List ConnectionPoolConnector) :
    allCancelled (l.map ConnectionPoolConnector.cancel) = true := by
  rw [allCancelled_iff]
  intro c hc
  obtain ⟨d, _, rfl⟩ := List.mem_map.mp hc
  rfl

theorem mem_erasePool {l : List (Address × ConnectionPool)} {a : Address}
    {e : Address × ConnectionPool} (h : e ∈ erasePool l a) : e ∈ l := by
  induction l with
  | nil => simp [erasePool] at h
  | cons d rest ih =>
    obtain ⟨b, p⟩ := d
    by_cases hba : b = a
    · simp [erasePool, hba] at h
      exact List.mem_cons_of_mem _ h
    · simp only [erasePool, if_neg hba, List.mem_cons] at h
      rcases h with h | h
      · exact h ▸ List.mem_cons_self _ _
      · exact List.mem_cons_of_mem _ (ih h)

theorem findPool_erasePool_ne (l : List (Address × ConnectionPool)) {a b : Address}
    (h : b ≠ a) : findPool (erasePool l a) b = findPool l b := by
  induction l with
  | nil => simp [erasePool]
  | cons d rest ih =>
    obtain ⟨x, p⟩ := d
    by_cases hxa : x = a
    · have hxb : ¬x = b := fun hx => h (hx ▸ hxa)
      have hab : ¬a = b := fun hab => h hab.symm
      simp [erasePool, findPool, hxa, hxb, hab]
    · by_cases hxb : x = b
      · subst hxb
        simp [erasePool, findPool, hxa]
      · simp [erasePool, findPool, hxa, hxb, ih]

theorem findPool_erasePool_self {l : List (Address × ConnectionPool)} {a : Address}
    (h : (l.map Prod.fst).Nodup) : findPool (erasePool l a) a = none := by
  induction l with
  | nil => simp [erasePool, findPool]
  | cons d rest ih =>
    obtain ⟨b, p⟩ := d
    simp only [List.map_cons, List.nodup_cons] at h
    by_cases hba : b = a
    · subst hba
      simp only [erasePool, if_pos rfl]
      rw [findPool_none_iff]
      exact h.1
    · simp only [erasePool, if_neg hba, findPool, if_neg hba]
      exact ih h.2

theorem erasePool_map_fst_nodup {l : List (Address × ConnectionPool)} {a : Address}
    (h : (l.map Prod.fst).Nodup) : ((erasePool l a).map Prod.fst).Nodup := by
  induction l with
  | nil => simp [erasePool]
  | cons d rest ih =>
    obtain ⟨b, p⟩ := d
    simp only [List.map_cons, List.nodup_cons] at h
    by_cases hba : b = a
    · simpa [erasePool, hba] using h.2
    · simp only [erasePool, if_neg hba, List.map_cons, List.nodup_cons]
      refine ⟨fun hb => h.1 ?_, ih h.2⟩
      obtain ⟨e, he, rfl⟩ := List.mem_map.mp hb
      exact List.mem_map_of_mem _ (mem_erasePool he)

theorem updatePool_map_fst (l : List (Address × ConnectionPool)) (a : Address)
    (f : ConnectionPool → ConnectionPool) :
    (updatePool l a f).map Prod.fst = l.map Prod.fst := by
  induction l with
  | nil => simp [updatePool]
  | cons d rest ih =>
    obtain ⟨b, p⟩ := d
    by_cases hba : b = a <;> simp [updatePool, hba, ih]

theorem findPool_updatePool_self (l : List (Address × ConnectionPool)) (a : Address)
    (f : ConnectionPool → ConnectionPool) :
    findPool (updatePool l a f) a = (findPool l a).map f := by
  induction l with
  | nil => simp [updatePool, findPool]
  | cons d rest ih =>
    obtain ⟨b, p⟩ := d
    by_cases hba : b = a <;> simp [updatePool, findPool, hba, ih]

theorem findPool_updatePool_ne (l : List (Address × ConnectionPool)) {a b : Address}
    (f : ConnectionPool → ConnectionPool) (h : b ≠ a) :
    findPool (updatePool l a f) b = findPool l b := by
  induction l with
  | nil => simp [updatePool]
  | cons d rest ih =>
    obtain ⟨x, p⟩ := d
    by_cases hxa : x = a
    · have hxb : ¬x = b := fun hx => h (hx ▸ hxa)
      have hab : ¬a = b := fun hab => h hab.symm
      simp [updatePool, findPool, hxa, hxb, hab]
    · by_cases hxb : x = b
      · subst hxb
        simp [updatePool, findPool, hxa]
      · simp [updatePool, findPool, hxa, hxb, ih]

theorem mem_updatePool {l : List (Address × ConnectionPool)} {a : Address}
    {f : ConnectionPool → ConnectionPool} {e : Address × ConnectionPool}
    (h : e ∈ updatePool l a f) : e ∈ l ∨ ∃ e₁ ∈ l, e = (e₁.fst, f e₁.snd) := by
  induction l with
  | nil => simp [updatePool] at h
  | cons d rest ih =>
    obtain ⟨b, p⟩ := d
    by_cases hba : b = a
    · simp only [updatePool, if_pos hba, List.mem_cons] at h
      rcases h with h | h
      · exact Or.inr ⟨(b, p), List.mem_cons_self _ _, h⟩
      · exact Or.inl (List.mem_cons_of_mem _ h)
    · simp only [updatePool, if_neg hba, List.mem_cons] at h
      rcases h with h | h
      · exact Or.inl (h ▸ List.mem_cons_self _ _)
      · rcases ih h with h' | ⟨e₁, he₁, rfl⟩
        · exact Or.inl (List.mem_cons_of_mem _ h')
        · exact Or.inr ⟨e₁, List.mem_cons_of_mem _ he₁, rfl⟩

theorem findPool_insertPool_ne (l : List (Address × ConnectionPool)) {b : Address}
    (p : ConnectionPool) (h : b ≠ p.address) :
    findPool (insertPool l p) b = findPool l b := by
  have hpb : ¬p.address = b := fun hx => h hx.symm
  induction l with
  | nil => simp [insertPool, findPool, hpb]
  | cons d rest ih =>
    obtain ⟨x, q⟩ := d
    by_cases hxp : x = p.address
    · have hxb : ¬x = b := fun hx => h (hx ▸ hxp)
      simp [insertPool, findPool, hxp, hxb, hpb]
    · by_cases hxb : x = b
      · subst hxb
        simp [insertPool, findPool, hxp]
      · simp [insertPool, findPool, hxp, hxb, ih]

theorem mem_insertPool {l : List (Address × ConnectionPool)} {p : ConnectionPool}
    {e : Address × ConnectionPool} (h : e ∈ insertPool l p) :
    e ∈ l ∨ e = (p.address, p) := by
  induction l with
  | nil =>
    simp only [insertPool, List.mem_singleton] at h
    exact Or.inr h
  | cons d rest ih =>
    obtain ⟨x, q⟩ := d
    by_cases hxp : x = p.address
    · rw [insertPool, if_pos hxp] at h
      rcases List.mem_cons.mp h with h | h
      · exact Or.inr (by rw [h, hxp])
      · exact Or.inl (List.mem_cons_of_mem _ h)
    · rw [insertPool, if_neg hxp] at h
      rcases List.mem_cons.mp h with h | h
      · exact Or.inl (h ▸ List.mem_cons_self _ _)
      · rcases ih h with h' | h'
        · exact Or.inl (List.mem_cons_of_mem _ h')
        · exact Or.inr h'

theorem insertPool_map_fst_mem (l : List (Address × ConnectionPool)) (p : ConnectionPool)
    (b : Address) :
    b ∈ (insertPool l p).map Prod.fst ↔ b ∈ l.map Prod.fst ∨ b = p.address := by
  induction l with
  | nil => simp [insertPool]
  | cons d rest ih =>
    obtain ⟨x, q⟩ := d
    by_cases hxp : x = p.address
    · rw [insertPool, if_pos hxp]
      subst hxp
      simp only [List.map_cons, List.mem_cons]
      constructor
      · intro h
        rcases h with h | h
        · exact Or.inl (Or.inl h)
        · exact Or.inl (Or.inr h)
      · intro h
        rcases h with (h | h) | h
        · exact Or.inl h
        · exact Or.inr h
        · exact Or.inl h
    · rw [insertPool, if_neg hxp]
      simp only [List.map_cons, List.mem_cons, ih, or_assoc]

theorem insertPool_map_fst_nodup {l : List (Address × ConnectionPool)} {p : ConnectionPool}
    (h : (l.map Prod.fst).Nodup) : ((insertPool l p).map Prod.fst).Nodup := by
  induction l with
  | nil => simp [insertPool]
  | cons d rest ih =>
    obtain ⟨x, q⟩ := d
    simp only [List.map_cons, List.nodup_cons] at h
    by_cases hxp : x = p.address
    · rw [insertPool, if_pos hxp]
      simp only [List.map_cons, List.nodup_cons]
      exact h
    · rw [insertPool, if_neg hxp]
      simp only [List.map_cons, List.nodup_cons]
      refine ⟨fun hx => ?_, ih h.2⟩
      rcases (insertPool_map_fst_mem rest p x).mp hx with hx' | hx'
      · exact h.1 hx'
      · exact hxp hx'

theorem memAddr_false_iff (l : List Address) (a : Address) :
    memAddr l a = false ↔ a ∉ l := by
  induction l with
  | nil => simp [memAddr]
  | cons b rest ih =>
    by_cases h : b = a
    · subst h
      simp [memAddr]
    · simp only [memAddr, if_neg h, List.mem_cons, ih]
      constructor
      · intro hna hor
        rcases hor with rfl | hmem
        · exact h rfl
        · exact hna hmem
      · intro hn hmem
        exact hn (Or.inr hmem)

theorem memAddr_true_iff (l : List Address) (a : Address) :
    memAddr l a = true ↔ a ∈ l := by
  induction l with
  | nil => simp [memAddr]
  | cons b rest ih =>
    by_cases h : b = a
    · subst h
      simp [memAddr]
    · simp only [memAddr, if_neg h, List.mem_cons, ih]
      constructor
      · intro hmem
        exact Or.inr hmem
      · intro hor
        rcases hor with rfl | hmem
        · exact absurd rfl h
        · exact hmem

theorem memAddr_filter_ne_self (l : List Address) (a : Address) :
    memAddr (l.filter (fun b => decide (b ≠ a))) a = false := by
  rw [memAddr_false_iff]
  intro h
  have := List.of_mem_filter h
  simp at this

theorem memAddr_filter_ne_other (l : List Address) {a x : Address} (h : x ≠ a) :
    memAddr (l.filter (fun b => decide (b ≠ a))) x = memAddr l x := by
  by_cases hx : x ∈ l
  · rw [(memAddr_true_iff _ _).mpr hx, (memAddr_true_iff _ _).mpr]
    exact List.mem_filter.mpr ⟨hx, by simpa using h⟩
  · rw [(memAddr_false_iff _ _).mpr hx, (memAddr_false_iff _ _).mpr]
    intro hc
    exact hx (List.mem_of_mem_filter hc)

theorem findPool_map_pools (l : List (Address × ConnectionPool)) (a : Address)
    (f : ConnectionPool → ConnectionPool) :
    findPool (l.map (fun e => (e.fst, f e.snd))) a = (findPool l a).map f := by
  induction l with
  | nil => simp [findPool]
  | cons d rest ih =>
    obtain ⟨b, p⟩ := d
    by_cases h : b = a <;> simp [findPool, h, ih]

open ConnectionPoolManager

/-!
## Field-preservation lemmas for the manager operations
-/

theorem maybe_closed_fields (m : ConnectionPoolManager) :
    (maybe_closed m).fst.pools = m.pools ∧
    (maybe_closed m).fst.pending_pools = m.pending_pools ∧
    (maybe_closed m).fst.to_flush = m.to_flush ∧
    (maybe_closed m).fst.keyspace_ = m.keyspace_ ∧
    (maybe_closed m).fst.listener_ = m.listener_ ∧
    (maybe_closed m).fst.next_id = m.next_id := by
  unfold ConnectionPoolManager.maybe_closed
  split <;> exact ⟨rfl, rfl, rfl, rfl, rfl, rfl⟩

theorem rank_le_maybe_closed (m : ConnectionPoolManager) :
    m.close_state.rank ≤ ((maybe_closed m).fst.close_state).rank := by
  unfold ConnectionPoolManager.maybe_closed
  split
  · next h => simp [h.1, CloseState.rank]
  · exact Nat.le_refl _

theorem maybe_closed_not_opened (m : ConnectionPoolManager)
    (h : m.close_state ≠ CloseState.opened) :
    (maybe_closed m).fst.close_state ≠ CloseState.opened := by
  unfold ConnectionPoolManager.maybe_closed
  split
  · simp
  · exact h

theorem add_fields (m : ConnectionPoolManager) (a : Address) :
    (m.add a).pools = m.pools ∧ (m.add a).to_flush = m.to_flush ∧
    (m.add a).close_state = m.close_state ∧ (m.add a).keyspace_ = m.keyspace_ ∧
    (m.add a).listener_ = m.listener_ := by
  unfold ConnectionPoolManager.add
  split
  · exact ⟨rfl, rfl, rfl, rfl, rfl⟩
  · split
    · exact ⟨rfl, rfl, rfl, rfl, rfl⟩
    · exact ⟨rfl, rfl, rfl, rfl, rfl⟩

theorem remove_fields (m : ConnectionPoolManager) (a : Address) :
    (m.remove a).pending_pools = m.pending_pools ∧ (m.remove a).to_flush = m.to_flush ∧
    (m.remove a).close_state = m.close_state ∧ (m.remove a).keyspace_ = m.keyspace_ ∧
    (m.remove a).listener_ = m.listener_ ∧ (m.remove a).next_id = m.next_id := by
  unfold ConnectionPoolManager.remove
  cases findPool m.pools a <;> exact ⟨rfl, rfl, rfl, rfl, rfl, rfl⟩

theorem notify_closed_fields (m : ConnectionPoolManager) (p : ConnectionPool) (b : Bool) :
    (m.notify_closed p b).fst.pending_pools = m.pending_pools ∧
    (m.notify_closed p b).fst.keyspace_ = m.keyspace_ ∧
    (m.notify_closed p b).fst.listener_ = m.listener_ ∧
    (m.notify_closed p b).fst.next_id = m.next_id := by
  unfold ConnectionPoolManager.notify_closed
  refine ⟨?_, ?_, ?_, ?_⟩ <;>
    simp [maybe_closed_fields]

theorem rank_le_notify_closed (m : ConnectionPoolManager) (p : ConnectionPool) (b : Bool) :
    m.close_state.rank ≤ ((m.notify_closed p b).fst.close_state).rank := by
  unfold ConnectionPoolManager.notify_closed
  dsimp only
  exact rank_le_maybe_closed
    { m with
      pools := erasePool m.pools p.address
      to_flush := m.to_flush.filter (fun x => decide (x ≠ p.address)) }

theorem rank_le_close (m : ConnectionPoolManager) :
    m.close_state.rank ≤ ((ConnectionPoolManager.close m).fst.close_state).rank := by
  unfold ConnectionPoolManager.close
  by_cases h : m.close_state = CloseState.opened
  · rw [if_pos h]
    refine Nat.le_trans ?_ (rank_le_maybe_closed _)
    simp [h, CloseState.rank]
  · rw [if_neg h]
    exact rank_le_maybe_closed m

theorem handle_connect_fields (m : ConnectionPoolManager) (c : ConnectionPoolConnector)
    (r : ConnectResult) :
    (m.handle_connect c r).fst.close_state = m.close_state ∧
    (m.handle_connect c r).fst.to_flush = m.to_flush ∧
    (m.handle_connect c r).fst.keyspace_ = m.keyspace_ ∧
    (m.handle_connect c r).fst.listener_ = m.listener_ ∧
    (m.handle_connect c r).fst.next_id = m.next_id := by
  unfold ConnectionPoolManager.handle_connect
  cases r <;> exact ⟨rfl, rfl, rfl, rfl, rfl⟩

/-- Close state never moves backwards under any stimulus (open → closing →
closed only). -/
theorem step_rank_mono (m : ConnectionPoolManager) (l : Label) :
    m.close_state.rank ≤ ((step m l).fst.close_state).rank := by
  cases l with
  | add a => simp [step, (add_fields m a).2.2.1]
  | remove a => simp [step, (remove_fields m a).2.2.1]
  | close => exact rank_le_close m
  | flush => simp [step, ConnectionPoolManager.flush]
  | set_listener l => simp [step, ConnectionPoolManager.set_listener]
  | set_keyspace k => simp [step, ConnectionPoolManager.set_keyspace]
  | connectDone cid r =>
    simp only [step]
    cases findConnector m.pending_pools cid with
    | none => exact Nat.le_refl _
    | some c =>
      by_cases hc : c.cancelled <;> simp [hc, (handle_connect_fields m c r).1]
  | poolClosed a b =>
    simp only [step]
    cases findPool m.pools a with
    | none => exact Nat.le_refl _
    | some p => exact rank_le_notify_closed m p b
  | poolUp a =>
    simp only [step]
    cases findPool m.pools a with
    | none => exact Nat.le_refl _
    | some p => exact Nat.le_refl _
  | poolDown a =>
    simp only [step]
    cases findPool m.pools a with
    | none => exact Nat.le_refl _
    | some p => exact Nat.le_refl _
  | poolCritical a code msg =>
    simp only [step]
    cases findPool m.pools a with
    | none => exact Nat.le_refl _
    | some p => exact Nat.le_refl _
  | poolRequiresFlush a =>
    simp only [step]
    cases findPool m.pools a with
    | none => exact Nat.le_refl _
    | some p => simp [ConnectionPoolManager.requires_flush]; split <;> simp

theorem add_noop_pool {m : ConnectionPoolManager} {a : Address}
    (h : (findPool m.pools a).isSome = true) : m.add a = m := by
  unfold ConnectionPoolManager.add
  rw [if_pos h]

theorem add_noop_pending {m : ConnectionPoolManager} {a : Address}
    (h : hasConnectorFor m.pending_pools a = true) : m.add a = m := by
  unfold ConnectionPoolManager.add
  by_cases hs : (findPool m.pools a).isSome = true
  · rw [if_pos hs]
  · rw [if_neg hs, if_pos h]

theorem add_fresh {m : ConnectionPoolManager} {a : Address}
    (h1 : ¬(findPool m.pools a).isSome = true)
    (h2 : ¬hasConnectorFor m.pending_pools a = true) :
    m.add a =
      { m with
        pending_pools :=
          m.pending_pools ++ [{ id := m.next_id, address := a, cancelled := false }]
        next_id := m.next_id + 1 } := by
  unfold ConnectionPoolManager.add
  rw [if_neg h1, if_neg h2]

theorem countConnectorsFor_eq_zero {l : List ConnectionPoolConnector} {a : Address}
    (h : hasConnectorFor l a = false) : countConnectorsFor l a = 0 := by
  unfold countConnectorsFor
  rw [hasConnectorFor_false_iff] at h
  rw [List.filter_eq_nil_iff.mpr]
  · rfl
  · intro c hc
    simpa using h c hc

theorem countConnectorsFor_append (l₁ l₂ : List ConnectionPoolConnector) (a : Address) :
    countConnectorsFor (l₁ ++ l₂) a = countConnectorsFor l₁ a + countConnectorsFor l₂ a := by
  unfold countConnectorsFor
  rw [List.filter_append, List.length_append]

theorem countPoolsFor_eq_zero {l : List (Address × ConnectionPool)} {a : Address}
    (h : findPool l a = none) : countPoolsFor l a = 0 := by
  unfold countPoolsFor
  rw [findPool_none_iff] at h
  rw [List.filter_eq_nil_iff.mpr]
  · rfl
  · intro e he
    simp only [decide_eq_true_eq]
    intro hfst
    exact h (hfst ▸ List.mem_map_of_mem Prod.fst he)

/-!
## Claim C2 — close is edge-triggered
-/

/-- C2: the first `close()` on an open manager moves `close_state` to closing
and iterates over every pool (a `poolCloseCall` per entry, in order, and the
stored pools all transitioned by `ConnectionPool::close`) and over every
pending connector (a `cancelCall` per connector, all left cancelled), exactly
once each; any `close()` on a non-open manager performs no iteration and is
exactly `maybe_closed()`; and `close_state` only ever advances
open → closing → closed under every stimulus. -/
theorem C2_close_edge_triggered (m : ConnectionPoolManager) :
    (m.close_state = CloseState.opened →
        (ConnectionPoolManager.close m).fst.pools
            = m.pools.map (fun e => (e.fst, e.snd.close))
      ∧ (ConnectionPoolManager.close m).fst.pending_pools
            = m.pending_pools.map ConnectionPoolConnector.cancel
      ∧ (ConnectionPoolManager.close m).fst.close_state
            = (if m.pools.isEmpty then CloseState.closed else CloseState.closing)
      ∧ (ConnectionPoolManager.close m).snd
            = m.pools.map (fun e => Event.poolCloseCall e.fst)
              ++ m.pending_pools.map (fun c => Event.cancelCall c.id)
              ++ (if m.pools.isEmpty then [Event.onClose] else []))
  ∧ (m.close_state ≠ CloseState.opened → ConnectionPoolManager.close m = maybe_closed m)
  ∧ (∀ l, m.close_state.rank ≤ ((step m l).fst.close_state).rank) := by
  refine ⟨?_, ?_, fun l => step_rank_mono m l⟩
  · intro h
    unfold ConnectionPoolManager.close
    rw [if_pos h]
    cases hp : m.pools with
    | nil => simp [ConnectionPoolManager.maybe_closed, hp]
    | cons e rest => simp [ConnectionPoolManager.maybe_closed, hp]
  · intro h
    unfold ConnectionPoolManager.close
    rw [if_neg h]

/-- Witness for C2 at concrete inputs: an open manager holding one pool and
one pending connector, and a closed manager. -/
theorem C2_close_edge_triggered_witness :
    ((ConnectionPoolManager.close mgrC2open).fst.pending_pools
        = mgrC2open.pending_pools.map ConnectionPoolConnector.cancel)
  ∧ ((ConnectionPoolManager.close mgrC2open).snd
        = mgrC2open.pools.map (fun e => Event.poolCloseCall e.fst)
          ++ mgrC2open.pending_pools.map (fun c => Event.cancelCall c.id)
          ++ (if mgrC2open.pools.isEmpty then [Event.onClose] else []))
  ∧ (ConnectionPoolManager.close mgrC2closed = maybe_closed mgrC2closed) :=
  ⟨((C2_close_edge_triggered mgrC2open).1 (by decide)).2.1,
   ((C2_close_edge_triggered mgrC2open).1 (by decide)).2.2.2,
   (C2_close_edge_triggered mgrC2closed).2.1 (by decide)⟩

/-!
## Claim C3 — add is idempotent
-/

/-- C3: `add(a)` is a no-op when a pool for `a` exists or a connector for `a`
is pending; `add(a); add(a)` equals a single `add(a)`; and from a state with
no pool and no pending connector for `a`, a double `add(a)` leaves exactly one
pending connector for `a` and no pool for `a`. -/
theorem C3_add_idempotent (m : ConnectionPoolManager) (a : Address) :
    ((findPool m.pools a).isSome = true → m.add a = m)
  ∧ (hasConnectorFor m.pending_pools a = true → m.add a = m)
  ∧ ((m.add a).add a = m.add a)
  ∧ (findPool m.pools a = none → hasConnectorFor m.pending_pools a = false →
       countPoolsFor ((m.add a).add a).pools a = 0
     ∧ countConnectorsFor ((m.add a).add a).pending_pools a
         = countConnectorsFor m.pending_pools a + 1
     ∧ countConnectorsFor m.pending_pools a = 0) := by
  have hdouble : (m.add a).add a = m.add a := by
    by_cases hs : (findPool m.pools a).isSome = true
    · rw [add_noop_pool hs, add_noop_pool hs]
    · by_cases hc : hasConnectorFor m.pending_pools a = true
      · rw [add_noop_pending hc, add_noop_pending hc]
      · have hhc : hasConnectorFor (m.add a).pending_pools a = true := by
          rw [add_fresh hs hc]
          simp only
          rw [hasConnectorFor_append]
          simp [hasConnectorFor]
        exact add_noop_pending hhc
  refine ⟨fun h => add_noop_pool h, fun h => add_noop_pending h, hdouble, ?_⟩
  intro hfp hfc
  have hs : ¬(findPool m.pools a).isSome = true := by
    rw [hfp]
    simp
  have hc : ¬hasConnectorFor m.pending_pools a = true := by
    rw [hfc]
    simp
  refine ⟨?_, ?_, countConnectorsFor_eq_zero hfc⟩
  · rw [hdouble, (add_fields m a).1]
    exact countPoolsFor_eq_zero hfp
  · rw [hdouble, add_fresh hs hc]
    simp only
    rw [countConnectorsFor_append]
    simp [countConnectorsFor, List.filter]

/-- Witness for C3 at concrete inputs: a manager with a pool for one address,
a pending connector for another, and a fresh third address. -/
theorem C3_add_idempotent_witness :
    (mgrC3.add addrC3pool = mgrC3)
  ∧ (mgrC3.add addrC3conn = mgrC3)
  ∧ ((mgrC3.add addrC3fresh).add addrC3fresh = mgrC3.add addrC3fresh)
  ∧ countConnectorsFor ((mgrC3.add addrC3fresh).add addrC3fresh).pending_pools addrC3fresh
      = countConnectorsFor mgrC3.pending_pools addrC3fresh + 1 :=
  ⟨(C3_add_idempotent mgrC3 addrC3pool).1 (by decide),
   (C3_add_idempotent mgrC3 addrC3conn).2.1 (by decide),
   (C3_add_idempotent mgrC3 addrC3fresh).2.2.1,
   ((C3_add_idempotent mgrC3 addrC3fresh).2.2.2 (by decide) (by decide)).2.1⟩

/-!
## Claim C6 — find_least_busy never serves a closing or closed pool
-/

/-- C6: `find_least_busy(a)` returns none when no pool for `a` is in the map,
and whenever it returns a connection, the pool it consulted is neither closing
nor closed. -/
theorem C6_find_least_busy_safe (m : ConnectionPoolManager) (a : Address) :
    (findPool m.pools a = none → m.find_least_busy a = none)
  ∧ (∀ p conn, findPool m.pools a = some p → m.find_least_busy a = some conn →
      p.state ≠ PoolState.closing ∧ p.state ≠ PoolState.closed) := by
  constructor
  · intro h
    simp [ConnectionPoolManager.find_least_busy, h]
  · intro p conn hp hc
    simp only [ConnectionPoolManager.find_least_busy, hp] at hc
    by_cases hs : p.state = PoolState.closing ∨ p.state = PoolState.closed
    · rw [ConnectionPool.find_least_busy, if_pos hs] at hc
      cases hc
    · push_neg at hs
      exact hs

/-- Witness for C6 at concrete inputs: a manager with no pool for one address
and a ready single-connection pool for another. -/
theorem C6_find_least_busy_safe_witness :
    (mgrC6.find_least_busy addrC3fresh = none)
  ∧ (poolC6.state ≠ PoolState.closing ∧ poolC6.state ≠ PoolState.closed) :=
  ⟨(C6_find_least_busy_safe mgrC6 addrC3fresh).1 (by decide),
   (C6_find_least_busy_safe mgrC6 addrC3pool).2 poolC6 connC6 (by decide) (by decide)⟩

/-!
## Keyspace and listener preservation across steps
-/

theorem close_fields (m : ConnectionPoolManager) :
    (ConnectionPoolManager.close m).fst.to_flush = m.to_flush ∧
    (ConnectionPoolManager.close m).fst.keyspace_ = m.keyspace_ ∧
    (ConnectionPoolManager.close m).fst.listener_ = m.listener_ ∧
    (ConnectionPoolManager.close m).fst.next_id = m.next_id := by
  unfold ConnectionPoolManager.close
  split
  · dsimp only
    refine ⟨?_, ?_, ?_, ?_⟩ <;> simp [maybe_closed_fields]
  · refine ⟨?_, ?_, ?_, ?_⟩ <;> simp [maybe_closed_fields]

theorem step_keyspace_const (m : ConnectionPoolManager) (l : Label)
    (h : Label.isSetKeyspace l = false) :
    (step m l).fst.keyspace_ = m.keyspace_ := by
  cases l with
  | add a => simp [step, (add_fields m a).2.2.2.1]
  | remove a => simp [step, (remove_fields m a).2.2.2.1]
  | close => simp [step, (close_fields m).2.1]
  | flush => rfl
  | set_listener x => rfl
  | set_keyspace k => simp [Label.isSetKeyspace] at h
  | connectDone cid r =>
    simp only [step]
    cases findConnector m.pending_pools cid with
    | none => rfl
    | some c =>
      by_cases hc : c.cancelled <;> simp [hc, (handle_connect_fields m c r).2.2.1]
  | poolClosed a b =>
    simp only [step]
    cases findPool m.pools a with
    | none => rfl
    | some p => exact (notify_closed_fields m p b).2.1
  | poolUp a =>
    simp only [step]
    cases findPool m.pools a <;> rfl
  | poolDown a =>
    simp only [step]
    cases findPool m.pools a <;> rfl
  | poolCritical a code msg =>
    simp only [step]
    cases findPool m.pools a <;> rfl
  | poolRequiresFlush a =>
    simp only [step]
    cases findPool m.pools a with
    | none => rfl
    | some p =>
      show (ConnectionPoolManager.requires_flush m a).keyspace_ = m.keyspace_
      unfold ConnectionPoolManager.requires_flush
      by_cases hm : memAddr m.to_flush a = true <;> simp [hm]

theorem run_keyspace_const (m : ConnectionPoolManager) (ls : List Label)
    (h : ∀ l ∈ ls, Label.isSetKeyspace l = false) :
    (runFrom m ls).fst.keyspace_ = m.keyspace_ := by
  induction ls generalizing m with
  | nil => rfl
  | cons l rest ih =>
    simp only [runFrom]
    rw [ih (step m l).fst (fun x hx => h x (List.mem_cons_of_mem _ hx))]
    exact step_keyspace_const m l (h l (List.mem_cons_self _ _))

theorem step_listener_isSome (m : ConnectionPoolManager) (l : Label)
    (h : m.listener_.isSome = true) :
    ((step m l).fst.listener_).isSome = true := by
  cases l with
  | add a => rw [step, (add_fields m a).2.2.2.2]; exact h
  | remove a => rw [step, (remove_fields m a).2.2.2.2.1]; exact h
  | close => rw [step]; rw [(close_fields m).2.2.1]; exact h
  | flush => exact h
  | set_listener x => rfl
  | set_keyspace k => exact h
  | connectDone cid r =>
    simp only [step]
    cases findConnector m.pending_pools cid with
    | none => exact h
    | some c =>
      by_cases hc : c.cancelled
      · simp [hc]; exact h
      · simp [hc]
        rw [(handle_connect_fields m c r).2.2.2.1]
        exact h
  | poolClosed a b =>
    simp only [step]
    cases findPool m.pools a with
    | none => exact h
    | some p =>
      rw [(notify_closed_fields m p b).2.2.1]
      exact h
  | poolUp a =>
    simp only [step]
    cases findPool m.pools a <;> exact h
  | poolDown a =>
    simp only [step]
    cases findPool m.pools a <;> exact h
  | poolCritical a code msg =>
    simp only [step]
    cases findPool m.pools a <;> exact h
  | poolRequiresFlush a =>
    simp only [step]
    cases findPool m.pools a with
    | none => exact h
    | some p =>
      show ((ConnectionPoolManager.requires_flush m a).listener_).isSome = true
      unfold ConnectionPoolManager.requires_flush
      by_cases hm : memAddr m.to_flush a = true <;> simp [hm, h]

theorem run_listener_isSome (m : ConnectionPoolManager) (ls : List Label)
    (h : m.listener_.isSome = true) :
    ((runFrom m ls).fst.listener_).isSome = true := by
  induction ls generalizing m with
  | nil => exact h
  | cons l rest ih =>
    simp only [runFrom]
    exact ih (step m l).fst (step_listener_isSome m l h)

/-!
## Claim C10 — keyspace round trip
-/

/-- C10: `set_keyspace(k)` followed by `keyspace()` returns `k` from any prior
state, and any run of operations containing no `set_keyspace` leaves the
stored keyspace unchanged, so the round trip survives intervening non-keyspace
operations. (The mutex serialising the two operations is a concurrency device
with no sequential content; the embedding is the sequential semantics both
operations have under the lock.) -/
theorem C10_keyspace_roundtrip (m : ConnectionPoolManager) (k : String) :
    (m.set_keyspace k).keyspace = k
  ∧ (∀ l, Label.isSetKeyspace l = false → (step m l).fst.keyspace_ = m.keyspace_)
  ∧ (∀ ls : List Label, (∀ l ∈ ls, Label.isSetKeyspace l = false) →
      ((runFrom (m.set_keyspace k) ls).fst).keyspace = k) :=
  ⟨rfl, fun l h => step_keyspace_const m l h,
   fun ls h => run_keyspace_const (m.set_keyspace k) ls h⟩

/-- Witness for C10 at concrete inputs: set a keyspace, run a flush, a close
and a remove, and read the keyspace back. -/
theorem C10_keyspace_roundtrip_witness :
    ((mgrC3.set_keyspace "cycling").keyspace = "cycling")
  ∧ ((step mgrC3 Label.flush).fst.keyspace_ = mgrC3.keyspace_)
  ∧ ((runFrom (mgrC3.set_keyspace "cycling")
        [Label.flush, Label.close, Label.remove addrC3pool]).fst).keyspace = "cycling" :=
  ⟨(C10_keyspace_roundtrip mgrC3 "cycling").1,
   (C10_keyspace_roundtrip mgrC3 "cycling").2.1 Label.flush (by decide),
   (C10_keyspace_roundtrip mgrC3 "cycling").2.2
     [Label.flush, Label.close, Label.remove addrC3pool] (by decide)⟩

/-!
## Claim C9 — the listener reference is never null
-/

/-- C9: the manager is constructed with the shared no-op listener,
`set_listener` stores the user listener when one is supplied and the no-op
listener when passed null, and consequently in every reachable state the
stored listener reference is non-null. -/
theorem C9_listener_never_null (ks : String) (ls : List Label) :
    ((runFrom (ConnectionPoolManager.init ks) ls).fst.listener_).isSome = true
  ∧ (ConnectionPoolManager.init ks).listener_ = some Listener.nop
  ∧ (∀ (m : ConnectionPoolManager) (n : Nat),
      (m.set_listener (some n)).listener_ = some (Listener.user n))
  ∧ (∀ m : ConnectionPoolManager, (m.set_listener none).listener_ = some Listener.nop) :=
  ⟨run_listener_isSome (ConnectionPoolManager.init ks) ls rfl, rfl,
   fun _ _ => rfl, fun _ => rfl⟩

/-!
## Claim C5 — a connector that fails completely
-/

/-- C5: when a pending, non-cancelled connector completes with zero successful
connections, the manager erases it from `pending_pools_`, fires exactly one
`on_pool_critical_error` with the connector's address, code and message, adds
no pool (the address stays absent from `available()`), and emits neither
`on_pool_up` nor `on_pool_down`. -/
theorem C5_connector_failure (m : ConnectionPoolManager) (cid : Nat)
    (c : ConnectionPoolConnector) (code : Nat) (msg : String)
    (h1 : findConnector m.pending_pools cid = some c)
    (h2 : c.cancelled = false)
    (h3 : findPool m.pools c.address = none) :
    step m (Label.connectDone cid (ConnectResult.failure code msg))
      = ({ m with pending_pools := m.pending_pools.filter (fun d => decide (d.id ≠ cid)) },
         [Event.poolCriticalError c.address code msg])
  ∧ c.address ∉ ((step m (Label.connectDone cid (ConnectResult.failure code msg))).fst).available
  ∧ (∀ x, Event.poolUp x ∉ (step m (Label.connectDone cid (ConnectResult.failure code msg))).snd)
  ∧ (∀ x, Event.poolDown x ∉
      (step m (Label.connectDone cid (ConnectResult.failure code msg))).snd) := by
  have hid : c.id = cid := (findConnector_some h1).2
  have hA : step m (Label.connectDone cid (ConnectResult.failure code msg))
      = ({ m with pending_pools := m.pending_pools.filter (fun d => decide (d.id ≠ cid)) },
         [Event.poolCriticalError c.address code msg]) := by
    simp only [step, h1, h2]
    unfold ConnectionPoolManager.handle_connect
    rw [hid]
    rfl
  refine ⟨hA, ?_, ?_, ?_⟩
  · rw [hA]
    show c.address ∉ List.map Prod.fst m.pools
    exact (findPool_none_iff m.pools c.address).mp h3
  · intro x
    rw [hA]
    simp
  · intro x
    rw [hA]
    simp

/-- Witness for C5 at concrete inputs: the pending connector of the witness
manager fails with a refused error. -/
theorem C5_connector_failure_witness :
    step mgrC3 (Label.connectDone 0 (ConnectResult.failure 1 "refused"))
      = ({ mgrC3 with
           pending_pools := mgrC3.pending_pools.filter (fun d => decide (d.id ≠ 0)) },
         [Event.poolCriticalError addrC3conn 1 "refused"])
  ∧ addrC3conn ∉
      ((step mgrC3 (Label.connectDone 0 (ConnectResult.failure 1 "refused"))).fst).available :=
  ⟨(C5_connector_failure mgrC3 0 ⟨0, addrC3conn, false⟩ 1 "refused"
      (by decide) rfl (by decide)).1,
   (C5_connector_failure mgrC3 0 ⟨0, addrC3conn, false⟩ 1 "refused"
      (by decide) rfl (by decide)).2.1⟩

/-!
## Claim C8 — remove defers map mutation to notify_closed
-/

/-- C8: `remove(a)` on a present pool only asks the pool to close: the map
keeps an entry for `a` (holding the closed pool), every other lookup, the
flush set and the pending vector are untouched, and `a` still appears in
`available()`; `remove(a)` on an absent address is the identity. The later
`notify_closed` from that pool erases exactly the entry for `a` from the map
and from the flush set, leaving every other address unchanged. -/
theorem C8_remove_frame (m : ConnectionPoolManager) (a : Address) (p : ConnectionPool)
    (b : Bool) (hu : (m.pools.map Prod.fst).Nodup) :
    (findPool m.pools a = none → m.remove a = m)
  ∧ (findPool m.pools a = some p →
       (m.remove a).pools.map Prod.fst = m.pools.map Prod.fst
     ∧ findPool (m.remove a).pools a = some (ConnectionPool.close p)
     ∧ (∀ x, x ≠ a → findPool (m.remove a).pools x = findPool m.pools x)
     ∧ a ∈ (m.remove a).available
     ∧ (m.remove a).to_flush = m.to_flush
     ∧ (m.remove a).pending_pools = m.pending_pools)
  ∧ (findPool m.pools a = some p → p.address = a →
       findPool ((step m (Label.poolClosed a b)).fst).pools a = none
     ∧ (∀ x, x ≠ a →
         findPool ((step m (Label.poolClosed a b)).fst).pools x = findPool m.pools x)
     ∧ memAddr ((step m (Label.poolClosed a b)).fst).to_flush a = false
     ∧ (∀ x, x ≠ a →
         memAddr ((step m (Label.poolClosed a b)).fst).to_flush x = memAddr m.to_flush x)) := by
  refine ⟨?_, ?_, ?_⟩
  · intro h
    unfold ConnectionPoolManager.remove
    rw [h]
  · intro h
    have hrem : m.remove a = { m with pools := updatePool m.pools a ConnectionPool.close } := by
      unfold ConnectionPoolManager.remove
      rw [h]
    refine ⟨?_, ?_, ?_, ?_, ?_, ?_⟩
    · rw [hrem]
      exact updatePool_map_fst m.pools a ConnectionPool.close
    · rw [hrem]
      show findPool (updatePool m.pools a ConnectionPool.close) a = _
      rw [findPool_updatePool_self, h]
      rfl
    · intro x hx
      rw [hrem]
      exact findPool_updatePool_ne m.pools ConnectionPool.close hx
    · rw [hrem]
      show a ∈ (updatePool m.pools a ConnectionPool.close).map Prod.fst
      rw [updatePool_map_fst]
      exact (findPool_isSome_iff m.pools a).mp (by rw [h]; rfl)
    · rw [hrem]
    · rw [hrem]
  · intro h hpa
    have hstep : (step m (Label.poolClosed a b)).fst
        = ((m.notify_closed p b).fst) := by
      simp only [step, h]
    have hpools : ((m.notify_closed p b).fst).pools = erasePool m.pools a := by
      unfold ConnectionPoolManager.notify_closed
      dsimp only
      rw [(maybe_closed_fields _).1]
      rw [hpa]
    have hflush : ((m.notify_closed p b).fst).to_flush
        = m.to_flush.filter (fun x => decide (x ≠ a)) := by
      unfold ConnectionPoolManager.notify_closed
      dsimp only
      rw [(maybe_closed_fields _).2.2.1]
      rw [hpa]
    refine ⟨?_, ?_, ?_, ?_⟩
    · rw [hstep, hpools]
      exact findPool_erasePool_self hu
    · intro x hx
      rw [hstep, hpools]
      exact findPool_erasePool_ne m.pools hx
    · rw [hstep, hflush]
      exact memAddr_filter_ne_self m.to_flush a
    · intro x hx
      rw [hstep, hflush]
      exact memAddr_filter_ne_other m.to_flush hx

/-- Witness for C8 at concrete inputs: removing an absent address, removing
the present pool, and the pool's later `notify_closed`. -/
theorem C8_remove_frame_witness :
    (mgrC3.remove addrC3fresh = mgrC3)
  ∧ ((mgrC3.remove addrC3pool).pools.map Prod.fst = mgrC3.pools.map Prod.fst)
  ∧ (addrC3pool ∈ (mgrC3.remove addrC3pool).available)
  ∧ (findPool ((step mgrC3 (Label.poolClosed addrC3pool true)).fst).pools addrC3pool = none)
  ∧ (memAddr ((step mgrC3 (Label.poolClosed addrC3pool true)).fst).to_flush addrC3pool
      = false) :=
  ⟨(C8_remove_frame mgrC3 addrC3fresh poolC6 true (by decide)).1 (by decide),
   ((C8_remove_frame mgrC3 addrC3pool poolC6 true (by decide)).2.1 (by decide)).1,
   ((C8_remove_frame mgrC3 addrC3pool poolC6 true (by decide)).2.1 (by decide)).2.2.2.1,
   ((C8_remove_frame mgrC3 addrC3pool poolC6 true (by decide)).2.2 (by decide) (by decide)).1,
   ((C8_remove_frame mgrC3 addrC3pool poolC6 true (by decide)).2.2 (by decide)
      (by decide)).2.2.1⟩

/-!
## The pools/pending disjointness invariant (claim C4)
-/

theorem ConnectionPool.close_address (p : ConnectionPool) :
    (ConnectionPool.close p).address = p.address := by
  unfold ConnectionPool.close
  split <;> rfl

theorem map_pools_map_fst (l : List (Address × ConnectionPool))
    (f : ConnectionPool → ConnectionPool) :
    (l.map (fun e => (e.fst, f e.snd))).map Prod.fst = l.map Prod.fst := by
  induction l with
  | nil => rfl
  | cons e rest ih => simp [ih]

theorem hasConnectorFor_filter_id {l : List ConnectionPoolConnector} {i : Nat}
    {c : ConnectionPoolConnector}
    (hpw : l.Pairwise (fun x y => x.address ≠ y.address))
    (h : findConnector l i = some c) :
    hasConnectorFor (l.filter (fun d => decide (d.id ≠ i))) c.address = false := by
  rw [hasConnectorFor_false_iff]
  intro d hd
  have hdl : d ∈ l := List.mem_of_mem_filter hd
  have hdi : d.id ≠ i := by simpa using List.of_mem_filter hd
  obtain ⟨hcl, hci⟩ := findConnector_some h
  have hdc : d ≠ c := fun hdc => hdi (hdc ▸ hci)
  have hsym : Symmetric (fun x y : ConnectionPoolConnector => x.address ≠ y.address) :=
    fun x y hxy => hxy.symm
  exact hpw.forall hsym hdl hcl hdc

theorem inv_init (ks : String) : Inv (ConnectionPoolManager.init ks) := by
  refine ⟨fun a ha => ?_, List.Pairwise.nil, List.nodup_nil, fun e he => ?_⟩
  · simp [ConnectionPoolManager.init, findPool] at ha
  · simp [ConnectionPoolManager.init] at he

theorem inv_maybe_closed {m : ConnectionPoolManager} (h : Inv m) :
    Inv (maybe_closed m).fst := by
  obtain ⟨h1, h2, h3, h4⟩ := h
  obtain ⟨hp, hpp, _, _, _, _⟩ := maybe_closed_fields m
  refine ⟨fun a ha => ?_, ?_, ?_, fun e he => ?_⟩
  · rw [hp] at ha
    rw [hpp]
    exact h1 a ha
  · rw [hpp]
    exact h2
  · rw [hp]
    exact h3
  · rw [hp] at he
    exact h4 e he

theorem inv_add {m : ConnectionPoolManager} (a : Address) (h : Inv m) : Inv (m.add a) := by
  obtain ⟨h1, h2, h3, h4⟩ := h
  by_cases hs : (findPool m.pools a).isSome = true
  · rw [add_noop_pool hs]
    exact ⟨h1, h2, h3, h4⟩
  · by_cases hc : hasConnectorFor m.pending_pools a = true
    · rw [add_noop_pending hc]
      exact ⟨h1, h2, h3, h4⟩
    · have hcf : hasConnectorFor m.pending_pools a = false := by
        revert hc
        cases hasConnectorFor m.pending_pools a <;> simp
      rw [add_fresh hs hc]
      refine ⟨fun x hx => ?_, ?_, h3, h4⟩
      · dsimp only at hx ⊢
        rw [hasConnectorFor_append, h1 x hx]
        have hax : ¬({ id := m.next_id, address := a, cancelled := false } :
            ConnectionPoolConnector).address = x := by
          show ¬a = x
          intro hax
          rw [hax] at hs
          exact hs hx
        simp [hasConnectorFor, hax]
      · dsimp only
        rw [List.pairwise_append]
        refine ⟨h2, List.pairwise_singleton _ _, ?_⟩
        intro c hcl d hd
        rw [List.mem_singleton] at hd
        subst hd
        show c.address ≠ a
        exact (hasConnectorFor_false_iff _ _).mp hcf c hcl

theorem inv_remove {m : ConnectionPoolManager} (a : Address) (h : Inv m) :
    Inv (m.remove a) := by
  obtain ⟨h1, h2, h3, h4⟩ := h
  cases hf : findPool m.pools a with
  | none =>
    unfold ConnectionPoolManager.remove
    rw [hf]
    exact ⟨h1, h2, h3, h4⟩
  | some p =>
    have hrem : m.remove a = { m with pools := updatePool m.pools a ConnectionPool.close } := by
      unfold ConnectionPoolManager.remove
      rw [hf]
    rw [hrem]
    refine ⟨fun x hx => ?_, h2, ?_, fun e he => ?_⟩
    · dsimp only at hx ⊢
      by_cases hxa : x = a
      · subst hxa
        exact h1 x (by rw [hf]; rfl)
      · rw [findPool_updatePool_ne m.pools ConnectionPool.close hxa] at hx
        exact h1 x hx
    · dsimp only
      rw [updatePool_map_fst]
      exact h3
    · dsimp only at he
      rcases mem_updatePool he with h' | ⟨e₁, he₁, rfl⟩
      · exact h4 e h'
      · show (ConnectionPool.close e₁.snd).address = e₁.fst
        rw [ConnectionPool.close_address]
        exact h4 e₁ he₁

theorem inv_close {m : ConnectionPoolManager} (h : Inv m) :
    Inv (ConnectionPoolManager.close m).fst := by
  obtain ⟨h1, h2, h3, h4⟩ := h
  unfold ConnectionPoolManager.close
  split
  · dsimp only
    apply inv_maybe_closed
    refine ⟨fun a ha => ?_, ?_, ?_, fun e he => ?_⟩
    · dsimp only at ha ⊢
      rw [findPool_map_pools] at ha
      rw [hasConnectorFor_map_cancel]
      apply h1 a
      cases hf : findPool m.pools a with
      | none => rw [hf] at ha; simp at ha
      | some p => rfl
    · dsimp only
      rw [List.pairwise_map]
      exact h2
    · dsimp only
      rw [map_pools_map_fst]
      exact h3
    · dsimp only at he
      obtain ⟨e₁, he₁, rfl⟩ := List.mem_map.mp he
      show (ConnectionPool.close e₁.snd).address = e₁.fst
      rw [ConnectionPool.close_address]
      exact h4 e₁ he₁
  · exact inv_maybe_closed ⟨h1, h2, h3, h4⟩

theorem inv_notify_closed {m : ConnectionPoolManager} (p : ConnectionPool) (b : Bool)
    (h : Inv m) : Inv (m.notify_closed p b).fst := by
  obtain ⟨h1, h2, h3, h4⟩ := h
  unfold ConnectionPoolManager.notify_closed
  dsimp only
  apply inv_maybe_closed
  refine ⟨fun a ha => ?_, h2, ?_, fun e he => ?_⟩
  · dsimp only at ha ⊢
    by_cases hap : a = p.address
    · subst hap
      rw [findPool_erasePool_self h3] at ha
      simp at ha
    · rw [findPool_erasePool_ne m.pools hap] at ha
      exact h1 a ha
  · dsimp only
    exact erasePool_map_fst_nodup h3
  · dsimp only at he
    exact h4 e (mem_erasePool he)

theorem inv_handle_connect {m : ConnectionPoolManager} {cid : Nat}
    {c : ConnectionPoolConnector} (r : ConnectResult)
    (hf : findConnector m.pending_pools cid = some c) (h : Inv m) :
    Inv (m.handle_connect c r).fst := by
  obtain ⟨h1, h2, h3, h4⟩ := h
  have hid : c.id = cid := (findConnector_some hf).2
  have hf' : findConnector m.pending_pools c.id = some c := by
    rw [hid]
    exact hf
  unfold ConnectionPoolManager.handle_connect
  cases r with
  | success conns =>
    dsimp only
    unfold ConnectionPoolManager.internal_add_pool
    refine ⟨fun a ha => ?_, ?_, ?_, fun e he => ?_⟩
    · dsimp only at ha ⊢
      by_cases hac : a = c.address
      · subst hac
        exact hasConnectorFor_filter_id h2 hf'
      · rw [findPool_insertPool_ne m.pools _ hac] at ha
        exact hasConnectorFor_filter_false _ (h1 a ha)
    · exact List.Pairwise.sublist (List.filter_sublist _) h2
    · exact insertPool_map_fst_nodup h3
    · dsimp only at he
      rcases mem_insertPool he with h' | rfl
      · exact h4 e h'
      · rfl
  | failure code msg =>
    dsimp only
    exact ⟨fun a ha => hasConnectorFor_filter_false _ (h1 a ha),
           List.Pairwise.sublist (List.filter_sublist _) h2, h3, h4⟩

theorem inv_step {m : ConnectionPoolManager} (l : Label) (h : Inv m) :
    Inv (step m l).fst := by
  cases l with
  | add a => exact inv_add a h
  | remove a => exact inv_remove a h
  | close => exact inv_close h
  | flush => exact h
  | set_listener x => exact h
  | set_keyspace k => exact h
  | connectDone cid r =>
    simp only [step]
    cases hf : findConnector m.pending_pools cid with
    | none => exact h
    | some c =>
      cases hcc : c.cancelled
      · simp only [hcc, Bool.false_eq_true, if_false]
        exact inv_handle_connect r hf h
      · simp only [hcc, if_true]
        exact h
  | poolClosed a b =>
    simp only [step]
    cases findPool m.pools a with
    | none => exact h
    | some p => exact inv_notify_closed p b h
  | poolUp a =>
    simp only [step]
    cases findPool m.pools a <;> exact h
  | poolDown a =>
    simp only [step]
    cases findPool m.pools a <;> exact h
  | poolCritical a code msg =>
    simp only [step]
    cases findPool m.pools a <;> exact h
  | poolRequiresFlush a =>
    simp only [step]
    cases findPool m.pools a with
    | none => exact h
    | some p =>
      show Inv (ConnectionPoolManager.requires_flush m a)
      unfold ConnectionPoolManager.requires_flush
      by_cases hm : memAddr m.to_flush a = true
      · rw [if_pos hm]
        exact h
      · rw [if_neg hm]
        exact h

theorem inv_run (m : ConnectionPoolManager) (ls : List Label) (h : Inv m) :
    Inv (runFrom m ls).fst := by
  induction ls generalizing m with
  | nil => exact h
  | cons l rest ih =>
    simp only [runFrom]
    exact ih _ (inv_step l h)

/-!
## Claim C4 — pools and pending connectors are disjoint
-/

/-- C4 (amended): in every manager state reachable from construction by the
user operations and the collaborator callbacks (`handle_connect`,
`notify_closed`, `notify_up`, `notify_down`, `notify_critical_error`,
`requires_flush`), an address that has a pool in the map has no connector in
the pending vector; every one of those operations preserves the disjointness.
The amendment excludes the raw Protected `add_pool` entry point, which does
not preserve it — see the counterexample. -/
theorem C4_pools_pending_disjoint (ks : String) (ls : List Label) (a : Address)
    (h : (findPool ((runFrom (ConnectionPoolManager.init ks) ls).fst).pools a).isSome
          = true) :
    hasConnectorFor ((runFrom (ConnectionPoolManager.init ks) ls).fst).pending_pools a
      = false :=
  (inv_run (ConnectionPoolManager.init ks) ls (inv_init ks)).1 a h

/-- Witness for C4 at concrete inputs: after `add` and a successful connect,
the address holds a pool and no pending connector. -/
theorem C4_pools_pending_disjoint_witness :
    hasConnectorFor
      ((runFrom (ConnectionPoolManager.init "k")
        [Label.add addrC3pool,
         Label.connectDone 0 (ConnectResult.success [connC6])]).fst).pending_pools
      addrC3pool = false :=
  C4_pools_pending_disjoint "k"
    [Label.add addrC3pool, Label.connectDone 0 (ConnectResult.success [connC6])]
    addrC3pool (by decide)

/-- Counterexample to C4 as stated: `add_pool` does not preserve the
disjointness. The reachable state `mgrC4` (one pending connector, no pools)
satisfies it, yet `add_pool` with a pool for the pending address yields a
state where the address has both a pool and a pending connector. -/
theorem C4_add_pool_counterexample :
    (∀ a, (findPool mgrC4.pools a).isSome = true →
        hasConnectorFor mgrC4.pending_pools a = false)
  ∧ (∃ ks ls, mgrC4 = (runFrom (ConnectionPoolManager.init ks) ls).fst)
  ∧ (findPool ((mgrC4.add_pool poolC4).pools) addrC3conn).isSome = true
  ∧ hasConnectorFor ((mgrC4.add_pool poolC4).pending_pools) addrC3conn = true := by
  refine ⟨fun a h => ?_, ⟨"k", [Label.add addrC3conn], rfl⟩, by decide, by decide⟩
  rw [show mgrC4.pools = [] from rfl] at h
  simp [findPool] at h

/-!
## The shutdown protocol (claims C1 and C7)
-/

theorem isEmpty_eq_nil {α : Type} {l : List α} : l.isEmpty = true ↔ l = [] := by
  cases l <;> simp

theorem findConnector_allCancelled {l : List ConnectionPoolConnector} {i : Nat}
    {c : ConnectionPoolConnector} (hall : allCancelled l = true)
    (h : findConnector l i = some c) : c.cancelled = true :=
  (allCancelled_iff l).mp hall c (findConnector_some h).1

theorem maybe_closed_fires {m : ConnectionPoolManager}
    (h1 : m.close_state = CloseState.closing) (h2 : m.pools = []) :
    maybe_closed m = ({ m with close_state := CloseState.closed }, [Event.onClose]) := by
  unfold ConnectionPoolManager.maybe_closed
  rw [if_pos ⟨h1, by rw [h2]; rfl⟩]

theorem maybe_closed_noop {m : ConnectionPoolManager}
    (h : ¬(m.close_state = CloseState.closing ∧ m.pools.isEmpty = true)) :
    maybe_closed m = (m, []) := by
  unfold ConnectionPoolManager.maybe_closed
  rw [if_neg h]

theorem maybe_closed_noop_cs {m : ConnectionPoolManager}
    (h : m.close_state ≠ CloseState.closing) : maybe_closed m = (m, []) :=
  maybe_closed_noop (fun hh => h hh.1)

theorem maybe_closed_noop_pools {m : ConnectionPoolManager}
    (h : m.pools ≠ []) : maybe_closed m = (m, []) :=
  maybe_closed_noop (fun hh => h (isEmpty_eq_nil.mp hh.2))

theorem shutdownInv_after_maybe_closed {m : ConnectionPoolManager}
    (h1 : m.close_state ≠ CloseState.opened → allCancelled m.pending_pools = true)
    (h2 : m.close_state = CloseState.closed → m.pools = []) :
    ShutdownInv (maybe_closed m).fst := by
  unfold ConnectionPoolManager.maybe_closed
  split
  · next hc =>
    refine ⟨fun _ => h1 (by rw [hc.1]; decide), fun _ => isEmpty_eq_nil.mp hc.2,
            fun h => nomatch h⟩
  · next hc =>
    refine ⟨h1, h2, fun hcs hnil => ?_⟩
    exact hc ⟨hcs, by rw [hnil]; rfl⟩

theorem shutdownInv_init (ks : String) : ShutdownInv (ConnectionPoolManager.init ks) := by
  refine ⟨fun h => absurd ?_ h, fun h => ?_, fun h => ?_⟩
  · rfl
  · simp [ConnectionPoolManager.init] at h
  · simp [ConnectionPoolManager.init] at h

theorem shutdownInv_step {m : ConnectionPoolManager} (l : Label)
    (hinv : ShutdownInv m) (hallow : allowedB m l = true) :
    ShutdownInv (step m l).fst := by
  obtain ⟨hpend, hclosed, hclosing⟩ := hinv
  cases l with
  | add a =>
    show ShutdownInv (m.add a)
    have hopen : m.close_state = CloseState.opened := by
      simpa [allowedB] using hallow
    have hcs : (m.add a).close_state = CloseState.opened := by
      rw [(add_fields m a).2.2.1, hopen]
    refine ⟨fun h => absurd hcs h, fun h => ?_, fun h => ?_⟩
    · rw [hcs] at h
      exact absurd h (by decide)
    · rw [hcs] at h
      exact absurd h (by decide)
  | remove a =>
    show ShutdownInv (m.remove a)
    have hcs : (m.remove a).close_state = m.close_state := (remove_fields m a).2.2.1
    have hpd : (m.remove a).pending_pools = m.pending_pools := (remove_fields m a).1
    have hmapfst : (m.remove a).pools.map Prod.fst = m.pools.map Prod.fst := by
      unfold ConnectionPoolManager.remove
      cases hf : findPool m.pools a
      · rfl
      · dsimp only
        exact updatePool_map_fst m.pools a ConnectionPool.close
    have hnil : (m.remove a).pools = [] ↔ m.pools = [] := by
      constructor
      · intro h
        have hmf := hmapfst
        rw [h] at hmf
        exact List.map_eq_nil_iff.mp hmf.symm
      · intro h
        have hmf := hmapfst
        rw [h] at hmf
        simp only [List.map_nil] at hmf
        exact List.map_eq_nil_iff.mp hmf
    refine ⟨fun h => ?_, fun h => ?_, fun h => ?_⟩
    · rw [hpd]
      rw [hcs] at h
      exact hpend h
    · rw [hcs] at h
      exact hnil.mpr (hclosed h)
    · rw [hcs] at h
      intro hn
      exact (hclosing h) (hnil.mp hn)
  | close =>
    show ShutdownInv (ConnectionPoolManager.close m).fst
    unfold ConnectionPoolManager.close
    by_cases hop : m.close_state = CloseState.opened
    · rw [if_pos hop]
      dsimp only
      exact shutdownInv_after_maybe_closed (fun _ => allCancelled_map_cancel _)
        (fun h => nomatch h)
    · rw [if_neg hop]
      exact shutdownInv_after_maybe_closed hpend hclosed
  | flush => exact ⟨hpend, hclosed, hclosing⟩
  | set_listener x => exact ⟨hpend, hclosed, hclosing⟩
  | set_keyspace k => exact ⟨hpend, hclosed, hclosing⟩
  | connectDone cid r =>
    simp only [step]
    cases hf : findConnector m.pending_pools cid with
    | none => exact ⟨hpend, hclosed, hclosing⟩
    | some c =>
      show ShutdownInv (if c.cancelled = true then (m, []) else m.handle_connect c r).1
      by_cases hcc : c.cancelled = true
      · rw [if_pos hcc]
        exact ⟨hpend, hclosed, hclosing⟩
      · rw [if_neg hcc]
        show ShutdownInv (m.handle_connect c r).fst
        have hccf : c.cancelled = false := by
          revert hcc
          cases c.cancelled <;> simp
        have hop : m.close_state = CloseState.opened := by
          by_contra hop
          have hct := findConnector_allCancelled (hpend hop) hf
          rw [hccf] at hct
          exact absurd hct (by decide)
        have hcs : (m.handle_connect c r).fst.close_state = CloseState.opened := by
          rw [(handle_connect_fields m c r).1, hop]
        refine ⟨fun h => absurd hcs h, fun h => ?_, fun h => ?_⟩
        · rw [hcs] at h
          exact absurd h (by decide)
        · rw [hcs] at h
          exact absurd h (by decide)
  | poolClosed a b =>
    simp only [step]
    cases hfp : findPool m.pools a with
    | none => exact ⟨hpend, hclosed, hclosing⟩
    | some p =>
      show ShutdownInv (m.notify_closed p b).fst
      have hnotclosed : m.close_state ≠ CloseState.closed := by
        intro hcs
        rw [hclosed hcs] at hfp
        exact absurd hfp (by simp [findPool])
      unfold ConnectionPoolManager.notify_closed
      dsimp only
      exact shutdownInv_after_maybe_closed hpend (fun h => absurd h hnotclosed)
  | poolUp a =>
    simp only [step]
    cases findPool m.pools a <;> exact ⟨hpend, hclosed, hclosing⟩
  | poolDown a =>
    simp only [step]
    cases findPool m.pools a <;> exact ⟨hpend, hclosed, hclosing⟩
  | poolCritical a code msg =>
    simp only [step]
    cases findPool m.pools a <;> exact ⟨hpend, hclosed, hclosing⟩
  | poolRequiresFlush a =>
    simp only [step]
    cases findPool m.pools a with
    | none => exact ⟨hpend, hclosed, hclosing⟩
    | some p =>
      show ShutdownInv (ConnectionPoolManager.requires_flush m a)
      unfold ConnectionPoolManager.requires_flush
      by_cases hm : memAddr m.to_flush a = true
      · rw [if_pos hm]
        exact ⟨hpend, hclosed, hclosing⟩
      · rw [if_neg hm]
        exact ⟨hpend, hclosed, hclosing⟩

theorem maybe_closed_transition {x : ConnectionPoolManager}
    (h : (maybe_closed x).fst.close_state = CloseState.closed)
    (hx : x.close_state ≠ CloseState.closed) :
    x.close_state = CloseState.closing ∧ x.pools = [] ∧
      maybe_closed x = ({ x with close_state := CloseState.closed }, [Event.onClose]) := by
  by_cases hc : (x.close_state = CloseState.closing ∧ x.pools.isEmpty = true)
  · exact ⟨hc.1, isEmpty_eq_nil.mp hc.2,
      by unfold ConnectionPoolManager.maybe_closed; rw [if_pos hc]⟩
  · exfalso
    rw [maybe_closed_noop hc] at h
    exact hx h

theorem onClose_mem_maybe_closed {x : ConnectionPoolManager}
    (h : Event.onClose ∈ (maybe_closed x).snd) :
    x.close_state = CloseState.closing ∧
      maybe_closed x = ({ x with close_state := CloseState.closed }, [Event.onClose]) ∧
      x.pools = [] := by
  by_cases hc : (x.close_state = CloseState.closing ∧ x.pools.isEmpty = true)
  · exact ⟨hc.1, by unfold ConnectionPoolManager.maybe_closed; rw [if_pos hc],
      isEmpty_eq_nil.mp hc.2⟩
  · rw [maybe_closed_noop hc] at h
    simp at h

theorem close_to_closed {m : ConnectionPoolManager}
    (h1 : m.close_state ≠ CloseState.closed)
    (h2 : (ConnectionPoolManager.close m).fst.close_state = CloseState.closed) :
    ∃ evs, (ConnectionPoolManager.close m).snd = evs ++ [Event.onClose] ∧
      Event.onClose ∉ evs := by
  unfold ConnectionPoolManager.close at h2 ⊢
  by_cases hop : m.close_state = CloseState.opened
  · rw [if_pos hop] at h2 ⊢
    dsimp only at h2 ⊢
    have ht := maybe_closed_transition h2 (fun hh => nomatch hh)
    refine ⟨m.pools.map (fun e => Event.poolCloseCall e.fst)
        ++ m.pending_pools.map (fun c => Event.cancelCall c.id), ?_, ?_⟩
    · rw [ht.2.2]
    · intro hmem
      rcases List.mem_append.mp hmem with hm2 | hm2 <;>
        · obtain ⟨e, _, he⟩ := List.mem_map.mp hm2
          cases he
  · rw [if_neg hop] at h2 ⊢
    have ht := maybe_closed_transition h2 h1
    refine ⟨[], ?_, by simp⟩
    rw [ht.2.2]
    rfl

theorem notify_closed_to_closed {m : ConnectionPoolManager} {p : ConnectionPool} {b : Bool}
    (h1 : m.close_state ≠ CloseState.closed)
    (h2 : (m.notify_closed p b).fst.close_state = CloseState.closed) :
    ∃ evs, (m.notify_closed p b).snd = evs ++ [Event.onClose] ∧
      Event.onClose ∉ evs := by
  unfold ConnectionPoolManager.notify_closed at h2 ⊢
  dsimp only at h2 ⊢
  have ht := maybe_closed_transition h2 h1
  refine ⟨(if b = true ∧ m.listener_.isSome = true then [Event.poolDown p.address] else []),
      ?_, ?_⟩
  · rw [ht.2.2]
  · by_cases hb : (b = true ∧ m.listener_.isSome = true)
    · rw [if_pos hb]
      simp
    · rw [if_neg hb]
      simp

theorem step_to_closed_shape {m : ConnectionPoolManager} {l : Label}
    (h1 : m.close_state ≠ CloseState.closed)
    (h2 : (step m l).fst.close_state = CloseState.closed) :
    ∃ evs, (step m l).snd = evs ++ [Event.onClose] ∧ Event.onClose ∉ evs := by
  cases l with
  | add a =>
    exfalso
    rw [show (step m (Label.add a)).fst = m.add a from rfl, (add_fields m a).2.2.1] at h2
    exact h1 h2
  | remove a =>
    exfalso
    rw [show (step m (Label.remove a)).fst = m.remove a from rfl,
      (remove_fields m a).2.2.1] at h2
    exact h1 h2
  | close => exact close_to_closed h1 h2
  | flush => exact absurd h2 h1
  | set_listener x => exact absurd h2 h1
  | set_keyspace k => exact absurd h2 h1
  | connectDone cid r =>
    simp only [step] at h2 ⊢
    cases hf : findConnector m.pending_pools cid with
    | none =>
      rw [hf] at h2
      exact absurd h2 h1
    | some c =>
      rw [hf] at h2
      replace h2 : (if c.cancelled = true then (m, ([] : List Event))
          else m.handle_connect c r).1.close_state = CloseState.closed := h2
      by_cases hcc : c.cancelled = true
      · rw [if_pos hcc] at h2
        exact absurd h2 h1
      · rw [if_neg hcc] at h2
        exfalso
        rw [(handle_connect_fields m c r).1] at h2
        exact h1 h2
  | poolClosed a b =>
    simp only [step] at h2 ⊢
    cases hfp : findPool m.pools a with
    | none =>
      rw [hfp] at h2
      exact absurd h2 h1
    | some p =>
      rw [hfp] at h2
      replace h2 : (m.notify_closed p b).fst.close_state = CloseState.closed := h2
      exact notify_closed_to_closed h1 h2
  | poolUp a =>
    simp only [step] at h2
    cases hfp : findPool m.pools a with
    | none =>
      rw [hfp] at h2
      exact absurd h2 h1
    | some p =>
      rw [hfp] at h2
      exact absurd h2 h1
  | poolDown a =>
    simp only [step] at h2
    cases hfp : findPool m.pools a with
    | none =>
      rw [hfp] at h2
      exact absurd h2 h1
    | some p =>
      rw [hfp] at h2
      exact absurd h2 h1
  | poolCritical a code msg =>
    simp only [step] at h2
    cases hfp : findPool m.pools a with
    | none =>
      rw [hfp] at h2
      exact absurd h2 h1
    | some p =>
      rw [hfp] at h2
      exact absurd h2 h1
  | poolRequiresFlush a =>
    simp only [step] at h2
    cases hfp : findPool m.pools a with
    | none =>
      rw [hfp] at h2
      exact absurd h2 h1
    | some p =>
      rw [hfp] at h2
      exfalso
      apply h1
      replace h2 : (ConnectionPoolManager.requires_flush m a).close_state
          = CloseState.closed := h2
      have hflcs : (ConnectionPoolManager.requires_flush m a).close_state
          = m.close_state := by
        unfold ConnectionPoolManager.requires_flush
        by_cases hm : memAddr m.to_flush a = true
        · rw [if_pos hm]
        · rw [if_neg hm]
      rw [hflcs] at h2
      exact h2

theorem onClose_mem_close {m : ConnectionPoolManager}
    (h : Event.onClose ∈ (ConnectionPoolManager.close m).snd) :
    m.close_state ≠ CloseState.closed ∧
    (ConnectionPoolManager.close m).fst.close_state = CloseState.closed ∧
    (ConnectionPoolManager.close m).fst.pools = [] := by
  unfold ConnectionPoolManager.close at h ⊢
  by_cases hop : m.close_state = CloseState.opened
  · rw [if_pos hop] at h ⊢
    dsimp only at h ⊢
    rcases List.mem_append.mp h with hmem | hmem
    · exfalso
      rcases List.mem_append.mp hmem with hm2 | hm2 <;>
        · obtain ⟨e, _, he⟩ := List.mem_map.mp hm2
          cases he
    · obtain ⟨hcs, heq, hpools⟩ := onClose_mem_maybe_closed hmem
      refine ⟨by rw [hop]; decide, by rw [heq], ?_⟩
      rw [heq]
      exact hpools
  · rw [if_neg hop] at h ⊢
    obtain ⟨hcs, heq, hpools⟩ := onClose_mem_maybe_closed h
    refine ⟨by rw [hcs]; decide, by rw [heq], ?_⟩
    rw [heq]
    exact hpools

theorem onClose_mem_notify_closed {m : ConnectionPoolManager} {p : ConnectionPool} {b : Bool}
    (h : Event.onClose ∈ (m.notify_closed p b).snd) :
    m.close_state ≠ CloseState.closed ∧
    (m.notify_closed p b).fst.close_state = CloseState.closed ∧
    (m.notify_closed p b).fst.pools = [] := by
  unfold ConnectionPoolManager.notify_closed at h ⊢
  dsimp only at h ⊢
  rcases List.mem_append.mp h with hmem | hmem
  · exfalso
    by_cases hb : (b = true ∧ m.listener_.isSome = true)
    · rw [if_pos hb] at hmem
      simp at hmem
    · rw [if_neg hb] at hmem
      simp at hmem
  · obtain ⟨hcs, heq, hpools⟩ := onClose_mem_maybe_closed hmem
    have hcs' : m.close_state = CloseState.closing := hcs
    refine ⟨fun hcl => absurd (hcs'.symm.trans hcl) (by decide), ?_, ?_⟩
    · rw [heq]
    · rw [heq]
      exact hpools

/-- Whenever a step emits `on_close`, the step is the closing → closed
transition of `maybe_closed`: the manager was not yet closed, and afterwards
it is closed with an empty pool map. -/
theorem onClose_mem_step {m : ConnectionPoolManager} {l : Label}
    (h : Event.onClose ∈ (step m l).snd) :
    m.close_state ≠ CloseState.closed ∧
    (step m l).fst.close_state = CloseState.closed ∧
    (step m l).fst.pools = [] := by
  cases l with
  | add a => simp [step] at h
  | remove a => simp [step] at h
  | close => exact onClose_mem_close h
  | flush => simp [step] at h
  | set_listener x => simp [step] at h
  | set_keyspace k => simp [step] at h
  | connectDone cid r =>
    simp only [step] at h ⊢
    cases hf : findConnector m.pending_pools cid with
    | none =>
      rw [hf] at h
      simp at h
    | some c =>
      rw [hf] at h
      replace h : Event.onClose ∈ (if c.cancelled = true then (m, ([] : List Event))
          else m.handle_connect c r).2 := h
      by_cases hcc : c.cancelled = true
      · rw [if_pos hcc] at h
        simp at h
      · rw [if_neg hcc] at h
        exfalso
        unfold ConnectionPoolManager.handle_connect at h
        cases r with
        | success conns => simp at h
        | failure code msg => simp at h
  | poolClosed a b =>
    simp only [step] at h ⊢
    cases hfp : findPool m.pools a with
    | none =>
      rw [hfp] at h
      simp at h
    | some p =>
      rw [hfp] at h
      replace h : Event.onClose ∈ (m.notify_closed p b).snd := h
      exact onClose_mem_notify_closed h
  | poolUp a =>
    simp only [step] at h
    cases hfp : findPool m.pools a with
    | none =>
      rw [hfp] at h
      simp at h
    | some p =>
      rw [hfp] at h
      replace h : Event.onClose ∈ [Event.poolUp p.address] := h
      simp at h
  | poolDown a =>
    simp only [step] at h
    cases hfp : findPool m.pools a with
    | none =>
      rw [hfp] at h
      simp at h
    | some p =>
      rw [hfp] at h
      replace h : Event.onClose ∈ [Event.poolDown p.address] := h
      simp at h
  | poolCritical a code msg =>
    simp only [step] at h
    cases hfp : findPool m.pools a with
    | none =>
      rw [hfp] at h
      simp at h
    | some p =>
      rw [hfp] at h
      replace h : Event.onClose ∈ [Event.poolCriticalError p.address code msg] := h
      simp at h
  | poolRequiresFlush a =>
    simp only [step] at h
    cases hfp : findPool m.pools a with
    | none =>
      rw [hfp] at h
      simp at h
    | some p =>
      rw [hfp] at h
      replace h : Event.onClose ∈ ([] : List Event) := h
      simp at h

/-- In a closed manager whose pending connectors are all cancelled, every
admissible stimulus is silent and leaves the closed state closed. -/
theorem step_quiet {m : ConnectionPoolManager} (l : Label)
    (hinv : ShutdownInv m) (hcs : m.close_state = CloseState.closed)
    (hallow : allowedB m l = true) :
    (step m l).snd = [] ∧ (step m l).fst.close_state = CloseState.closed := by
  obtain ⟨hpend, hclosed, _⟩ := hinv
  have hpools : m.pools = [] := hclosed hcs
  cases l with
  | add a =>
    exfalso
    simp [allowedB, hcs] at hallow
  | remove a =>
    have hrm : m.remove a = m := by
      unfold ConnectionPoolManager.remove
      rw [show findPool m.pools a = none from by rw [hpools]; rfl]
    show (m.remove a, ([] : List Event)).snd = [] ∧
      (m.remove a, ([] : List Event)).fst.close_state = CloseState.closed
    rw [hrm]
    exact ⟨rfl, hcs⟩
  | close =>
    have hcl : ConnectionPoolManager.close m = (m, []) := by
      unfold ConnectionPoolManager.close
      rw [if_neg (by rw [hcs]; decide)]
      exact maybe_closed_noop_cs (by rw [hcs]; decide)
    show (ConnectionPoolManager.close m).snd = [] ∧
      (ConnectionPoolManager.close m).fst.close_state = CloseState.closed
    rw [hcl]
    exact ⟨rfl, hcs⟩
  | flush => exact ⟨rfl, hcs⟩
  | set_listener x => exact ⟨rfl, hcs⟩
  | set_keyspace k => exact ⟨rfl, hcs⟩
  | connectDone cid r =>
    simp only [step]
    cases hf : findConnector m.pending_pools cid with
    | none => exact ⟨rfl, hcs⟩
    | some c =>
      have hct : c.cancelled = true :=
        findConnector_allCancelled (hpend (by rw [hcs]; decide)) hf
      show (if c.cancelled = true then (m, ([] : List Event))
          else m.handle_connect c r).snd = [] ∧
        (if c.cancelled = true then (m, ([] : List Event))
          else m.handle_connect c r).fst.close_state = CloseState.closed
      rw [if_pos hct]
      exact ⟨rfl, hcs⟩
  | poolClosed a b =>
    simp only [step]
    rw [show findPool m.pools a = none from by rw [hpools]; rfl]
    exact ⟨rfl, hcs⟩
  | poolUp a =>
    simp only [step]
    rw [show findPool m.pools a = none from by rw [hpools]; rfl]
    exact ⟨rfl, hcs⟩
  | poolDown a =>
    simp only [step]
    rw [show findPool m.pools a = none from by rw [hpools]; rfl]
    exact ⟨rfl, hcs⟩
  | poolCritical a code msg =>
    simp only [step]
    rw [show findPool m.pools a = none from by rw [hpools]; rfl]
    exact ⟨rfl, hcs⟩
  | poolRequiresFlush a =>
    simp only [step]
    rw [show findPool m.pools a = none from by rw [hpools]; rfl]
    exact ⟨rfl, hcs⟩

theorem run_quiet (ls : List Label) : ∀ m : ConnectionPoolManager, ShutdownInv m →
    m.close_state = CloseState.closed → goodLabels m ls = true →
    (runFrom m ls).snd = [] ∧ (runFrom m ls).fst.close_state = CloseState.closed := by
  induction ls with
  | nil =>
    intro m _ hcs _
    exact ⟨rfl, hcs⟩
  | cons l rest ih =>
    intro m hinv hcs hgood
    have hg : allowedB m l = true ∧ goodLabels (step m l).fst rest = true := by
      simpa [goodLabels] using hgood
    obtain ⟨hsnd, hcs'⟩ := step_quiet l hinv hcs hg.1
    have hinv' := shutdownInv_step l hinv hg.1
    obtain ⟨hrest, hcsf⟩ := ih (step m l).fst hinv' hcs' hg.2
    refine ⟨?_, hcsf⟩
    show (step m l).snd ++ (runFrom (step m l).fst rest).snd = []
    rw [hsnd, hrest]
    rfl

theorem afterFirstOnClose_append_not_mem {evs : List Event}
    (h : Event.onClose ∉ evs) (t : List Event) :
    afterFirstOnClose (evs ++ t) = afterFirstOnClose t := by
  induction evs with
  | nil => rfl
  | cons e rest ih =>
    have he : e ≠ Event.onClose := fun hh => h (hh ▸ List.mem_cons_self _ _)
    have hrest : Event.onClose ∉ rest := fun hm => h (List.mem_cons_of_mem _ hm)
    cases e with
    | onClose => exact absurd rfl he
    | poolUp a => exact ih hrest
    | poolDown a => exact ih hrest
    | poolCriticalError a c msgx => exact ih hrest
    | poolCloseCall a => exact ih hrest
    | cancelCall i => exact ih hrest

theorem afterFirstOnClose_append_onClose {evs : List Event}
    (h : Event.onClose ∉ evs) (t : List Event) :
    afterFirstOnClose (evs ++ Event.onClose :: t) = some t := by
  rw [afterFirstOnClose_append_not_mem h]
  rfl

theorem countOnClose_of_afterFirst {evs : List Event}
    (h : afterFirstOnClose evs = some []) : countOnClose evs = 1 := by
  induction evs with
  | nil => simp [afterFirstOnClose] at h
  | cons e rest ih =>
    cases e with
    | onClose =>
      have hr : rest = [] := Option.some.inj h
      subst hr
      rfl
    | poolUp a => exact ih h
    | poolDown a => exact ih h
    | poolCriticalError a c msgx => exact ih h
    | poolCloseCall a => exact ih h
    | cancelCall i => exact ih h

theorem run_rank_mono (ls : List Label) : ∀ m : ConnectionPoolManager,
    m.close_state.rank ≤ ((runFrom m ls).fst.close_state).rank := by
  induction ls with
  | nil =>
    intro m
    exact Nat.le_refl _
  | cons l rest ih =>
    intro m
    exact Nat.le_trans (step_rank_mono m l) (ih (step m l).fst)

theorem close_step_rank_ge_one (m : ConnectionPoolManager) :
    1 ≤ ((step m Label.close).fst.close_state).rank := by
  show 1 ≤ ((ConnectionPoolManager.close m).fst.close_state).rank
  unfold ConnectionPoolManager.close
  by_cases hop : m.close_state = CloseState.opened
  · rw [if_pos hop]
    dsimp only
    refine Nat.le_trans ?_ (rank_le_maybe_closed _)
    exact Nat.le_refl _
  · rw [if_neg hop]
    refine Nat.le_trans ?_ (rank_le_maybe_closed m)
    cases hcs : m.close_state with
    | opened => exact absurd hcs hop
    | closing => decide
    | closed => decide

theorem close_mem_run_rank (ls : List Label) : ∀ m : ConnectionPoolManager,
    Label.close ∈ ls → 1 ≤ ((runFrom m ls).fst.close_state).rank := by
  induction ls with
  | nil =>
    intro m h
    exact absurd h (List.not_mem_nil _)
  | cons l rest ih =>
    intro m h
    rcases List.mem_cons.mp h with rfl | hmem
    · exact Nat.le_trans (close_step_rank_ge_one m)
        (run_rank_mono rest (step m Label.close).fst)
    · exact ih (step m l).fst hmem

theorem rank_ge_one_ne_opened {cs : CloseState} (h : 1 ≤ cs.rank) :
    cs ≠ CloseState.opened := by
  intro hcs
  rw [hcs] at h
  exact absurd h (by decide)

theorem shutdownInv_run (ls : List Label) : ∀ m : ConnectionPoolManager, ShutdownInv m →
    goodLabels m ls = true → ShutdownInv (runFrom m ls).fst := by
  induction ls with
  | nil =>
    intro m h _
    exact h
  | cons l rest ih =>
    intro m hinv hgood
    have hg : allowedB m l = true ∧ goodLabels (step m l).fst rest = true := by
      simpa [goodLabels] using hgood
    exact ih (step m l).fst (shutdownInv_step l hinv hg.1) hg.2

theorem run_to_closed_trace (ls : List Label) : ∀ m : ConnectionPoolManager,
    ShutdownInv m → m.close_state ≠ CloseState.closed → goodLabels m ls = true →
    (runFrom m ls).fst.close_state = CloseState.closed →
    afterFirstOnClose (runFrom m ls).snd = some [] := by
  induction ls with
  | nil =>
    intro m _ hne _ hfinal
    exact absurd hfinal hne
  | cons l rest ih =>
    intro m hinv hne hgood hfinal
    have hg : allowedB m l = true ∧ goodLabels (step m l).fst rest = true := by
      simpa [goodLabels] using hgood
    have hinv' := shutdownInv_step l hinv hg.1
    by_cases hc1 : (step m l).fst.close_state = CloseState.closed
    · obtain ⟨evs, hevs, hnot⟩ := step_to_closed_shape hne hc1
      obtain ⟨hrest, _⟩ := run_quiet rest (step m l).fst hinv' hc1 hg.2
      show afterFirstOnClose ((step m l).snd ++ (runFrom (step m l).fst rest).snd) = some []
      rw [hrest, hevs, List.append_nil]
      exact afterFirstOnClose_append_onClose hnot []
    · have hno : Event.onClose ∉ (step m l).snd := fun hm => hc1 (onClose_mem_step hm).2.1
      show afterFirstOnClose ((step m l).snd ++ (runFrom (step m l).fst rest).snd) = some []
      rw [afterFirstOnClose_append_not_mem hno]
      exact ih (step m l).fst hinv' hc1 hg.2 hfinal

/-!
## Claim C1 — on_close is fired once, last, and only by maybe_closed
-/

/-- C1 (amended): over every run in which `close()` is called, in which the
user does not call `add()` after `close()`, and in which every pool has
reported closed by the end (the pool map has drained), the `on_close`
callback fires exactly once, no event whatsoever — in particular no
`on_pool_up`, `on_pool_down` or `on_pool_critical_error` — follows it, and
every step that emits `on_close` is the closing → closed transition of
`maybe_closed` (it starts in a non-closed state and ends closed with an
empty pool map). The no-`add`-after-`close` amendment is forced by the
counterexample below. -/
theorem C1_on_close_once_and_last (ks : String) (ls : List Label)
    (hgood : goodLabels (ConnectionPoolManager.init ks) ls = true)
    (hclose : Label.close ∈ ls)
    (hdrained : ((runFrom (ConnectionPoolManager.init ks) ls).fst).pools = []) :
    afterFirstOnClose ((runFrom (ConnectionPoolManager.init ks) ls).snd) = some []
  ∧ countOnClose ((runFrom (ConnectionPoolManager.init ks) ls).snd) = 1
  ∧ (∀ (m : ConnectionPoolManager) (l : Label), Event.onClose ∈ (step m l).snd →
      m.close_state ≠ CloseState.closed ∧
      (step m l).fst.close_state = CloseState.closed ∧
      (step m l).fst.pools = []) := by
  have hfinv := shutdownInv_run ls (ConnectionPoolManager.init ks) (shutdownInv_init ks) hgood
  have hrank := close_mem_run_rank ls (ConnectionPoolManager.init ks) hclose
  have hne := rank_ge_one_ne_opened hrank
  have hclosed : (runFrom (ConnectionPoolManager.init ks) ls).fst.close_state
      = CloseState.closed := by
    cases hcs : (runFrom (ConnectionPoolManager.init ks) ls).fst.close_state with
    | opened => exact absurd hcs hne
    | closing => exact absurd hdrained (hfinv.2.2 hcs)
    | closed => rfl
  have hmain := run_to_closed_trace ls (ConnectionPoolManager.init ks) (shutdownInv_init ks)
    (by simp [ConnectionPoolManager.init]) hgood hclosed
  exact ⟨hmain, countOnClose_of_afterFirst hmain, fun m l h => onClose_mem_step h⟩

/-- Witness for C1 at concrete inputs: add an address and close before the
connect completes; the trace ends with the single `on_close`. -/
theorem C1_on_close_once_and_last_witness :
    afterFirstOnClose ((runFrom (ConnectionPoolManager.init "k")
        [Label.add addrC3pool, Label.close]).snd) = some []
  ∧ countOnClose ((runFrom (ConnectionPoolManager.init "k")
        [Label.add addrC3pool, Label.close]).snd) = 1 :=
  ⟨(C1_on_close_once_and_last "k" [Label.add addrC3pool, Label.close]
      (by decide) (by decide) (by decide)).1,
   (C1_on_close_once_and_last "k" [Label.add addrC3pool, Label.close]
      (by decide) (by decide) (by decide)).2.1⟩

/-- Counterexample to C1 as stated: `add()` has no close-state guard, so a
run that calls `add(b)` after `close()` spawns a connector that no one
cancels; when it fails, `on_pool_critical_error` fires after `on_close`,
even though `close()` was called and the pool map is empty at the end. -/
theorem C1_counterexample :
    Label.close ∈ ([Label.close, Label.add addrC3conn,
        Label.connectDone 0 (ConnectResult.failure 1 "refused")] : List Label)
  ∧ ((runFrom (ConnectionPoolManager.init "k")
        [Label.close, Label.add addrC3conn,
         Label.connectDone 0 (ConnectResult.failure 1 "refused")]).fst).pools = []
  ∧ (runFrom (ConnectionPoolManager.init "k")
        [Label.close, Label.add addrC3conn,
         Label.connectDone 0 (ConnectResult.failure 1 "refused")]).snd
      = [Event.onClose, Event.poolCriticalError addrC3conn 1 "refused"]
  ∧ afterFirstOnClose ((runFrom (ConnectionPoolManager.init "k")
        [Label.close, Label.add addrC3conn,
         Label.connectDone 0 (ConnectResult.failure 1 "refused")]).snd)
      = some [Event.poolCriticalError addrC3conn 1 "refused"]
  ∧ Event.isPoolEvent (Event.poolCriticalError addrC3conn 1 "refused") = true := by
  decide

/-!
## Claim C7 — shutdown with an in-flight connector
-/

theorem step_env_noop {m : ConnectionPoolManager} (l : Label)
    (hpools : m.pools = []) (hcanc : allCancelled m.pending_pools = true)
    (henv : l.isEnv = true) : step m l = (m, []) := by
  cases l with
  | add a => simp [Label.isEnv] at henv
  | remove a => simp [Label.isEnv] at henv
  | close => simp [Label.isEnv] at henv
  | flush => simp [Label.isEnv] at henv
  | set_listener x => simp [Label.isEnv] at henv
  | set_keyspace k => simp [Label.isEnv] at henv
  | connectDone cid r =>
    simp only [step]
    cases hf : findConnector m.pending_pools cid with
    | none => rfl
    | some c =>
      show (if c.cancelled = true then (m, ([] : List Event))
        else m.handle_connect c r) = (m, [])
      rw [if_pos (findConnector_allCancelled hcanc hf)]
  | poolClosed a b =>
    simp only [step]
    rw [show findPool m.pools a = none from by rw [hpools]; rfl]
  | poolUp a =>
    simp only [step]
    rw [show findPool m.pools a = none from by rw [hpools]; rfl]
  | poolDown a =>
    simp only [step]
    rw [show findPool m.pools a = none from by rw [hpools]; rfl]
  | poolCritical a code msg =>
    simp only [step]
    rw [show findPool m.pools a = none from by rw [hpools]; rfl]
  | poolRequiresFlush a =>
    simp only [step]
    rw [show findPool m.pools a = none from by rw [hpools]; rfl]

theorem run_env_noop (ls : List Label) : ∀ m : ConnectionPoolManager,
    m.pools = [] → allCancelled m.pending_pools = true →
    (∀ l ∈ ls, Label.isEnv l = true) → runFrom m ls = (m, []) := by
  induction ls with
  | nil =>
    intro m _ _ _
    rfl
  | cons l rest ih =>
    intro m hp hc henv
    have hstep := step_env_noop l hp hc (henv l (List.mem_cons_self _ _))
    have hrest := ih m hp hc (fun x hx => henv x (List.mem_cons_of_mem _ hx))
    show ((runFrom (step m l).fst rest).fst,
      (step m l).snd ++ (runFrom (step m l).fst rest).snd) = (m, [])
    rw [hstep]
    dsimp only
    rw [hrest]
    rfl

/-- C7: `add(a)` then `close()` before the connector completes, followed by
any collaborator callbacks (cancellation being lossless, a cancelled
connector never invokes its completion callback — this is built into the run
semantics): the connector is cancelled (a `cancel` call is emitted and the
connector stays cancelled in the pending vector), no `on_pool_up` is ever
emitted, `on_close` fires exactly once, and no callback at all follows it. -/
theorem C7_shutdown_with_inflight_connector (ks : String) (a : Address) (rest : List Label)
    (henv : ∀ l ∈ rest, Label.isEnv l = true) :
    runFrom (ConnectionPoolManager.init ks) (Label.add a :: Label.close :: rest)
      = (c7closed ks a, [Event.cancelCall 0, Event.onClose])
  ∧ (∀ c ∈ (runFrom (ConnectionPoolManager.init ks)
        (Label.add a :: Label.close :: rest)).fst.pending_pools, c.cancelled = true)
  ∧ (∀ x, Event.poolUp x ∉ (runFrom (ConnectionPoolManager.init ks)
        (Label.add a :: Label.close :: rest)).snd)
  ∧ countOnClose ((runFrom (ConnectionPoolManager.init ks)
        (Label.add a :: Label.close :: rest)).snd) = 1
  ∧ afterFirstOnClose ((runFrom (ConnectionPoolManager.init ks)
        (Label.add a :: Label.close :: rest)).snd) = some [] := by
  have hs1 : step (ConnectionPoolManager.init ks) (Label.add a) = (c7mid ks a, []) := rfl
  have hs2 : step (c7mid ks a) Label.close
      = (c7closed ks a, [Event.cancelCall 0, Event.onClose]) := rfl
  have hrest := run_env_noop rest (c7closed ks a) rfl rfl henv
  have hrun : runFrom (ConnectionPoolManager.init ks) (Label.add a :: Label.close :: rest)
      = (c7closed ks a, [Event.cancelCall 0, Event.onClose]) := by
    simp only [runFrom]
    rw [hs1]
    dsimp only
    rw [hs2]
    dsimp only
    rw [hrest]
    rfl
  refine ⟨hrun, ?_, ?_, ?_, ?_⟩
  · rw [hrun]
    intro c hc
    have hc' : c = ⟨0, a, true⟩ := List.mem_singleton.mp hc
    rw [hc']
  · intro x
    rw [hrun]
    simp
  · rw [hrun]
    rfl
  · rw [hrun]
    rfl

/-- Witness for C7 at concrete inputs: a cancelled connector later "fires"
(the run semantics makes it a no-op) and a stale pool-closed notification
arrives; neither produces an event after `on_close`. -/
theorem C7_shutdown_with_inflight_connector_witness :
    runFrom (ConnectionPoolManager.init "k")
        (Label.add addrC3pool :: Label.close ::
          [Label.connectDone 0 (ConnectResult.failure 1 "refused"),
           Label.poolClosed addrC3pool true])
      = (c7closed "k" addrC3pool, [Event.cancelCall 0, Event.onClose])
  ∧ countOnClose ((runFrom (ConnectionPoolManager.init "k")
        (Label.add addrC3pool :: Label.close ::
          [Label.connectDone 0 (ConnectResult.failure 1 "refused"),
           Label.poolClosed addrC3pool true])).snd) = 1 :=
  ⟨(C7_shutdown_with_inflight_connector "k" addrC3pool
      [Label.connectDone 0 (ConnectResult.failure 1 "refused"),
       Label.poolClosed addrC3pool true] (by decide)).1,
   (C7_shutdown_with_inflight_connector "k" addrC3pool
      [Label.connectDone 0 (ConnectResult.failure 1 "refused"),
       Label.poolClosed addrC3pool true] (by decide)).2.2.2.1⟩

end Cass
